import Mathlib

/-!
Shallow embedding of the EntainHW transactional balance ledger.

The Go repository stores per-user balances (in integer cents) in a
postgres table and applies win/lose adjustments inside one SQL
transaction.  This file embeds, directly from the source:

- the storage operations of internal/repos/users/postgres
  (Exists, LockAndGetBalance, IncreaseBalance, DecreaseBalance,
  GetBalance) and internal/repos/transactions/postgres (Insert),
  over an explicit state (lists of table rows), with the schema
  constraints of cmd/migrator/migrations/000001_create_table_user.up.sql
  (CHECK balance greater or equal 0, BIGINT range, the primary key on
  transaction_id, the foreign key on user_id);
- pgutils.WithTx (commit on success, rollback on error) and
  balance.ProcessTransaction, instrumented with an event trace that
  records the order of storage calls;
- the HTTP-boundary parsers of internal/api/handler_provider.go
  (parseAmountCents, parseTxState, parseSourceType), including the
  exact behaviour of strings.TrimSpace, strings.ToLower (restricted to
  ASCII letters; the inputs compared against are all ASCII),
  strings.Split and strconv.ParseInt, and with the reachable
  out-of-range string index modelled as a distinguished outcome;
- the balance rendering of GetBalanceHandler, which computes
  fmt.Sprintf of the IEEE-754 double float64(bal) divided by 100.0 with
  two fixed decimals; the double arithmetic is embedded exactly as
  dyadic rational arithmetic with round-to-nearest, ties-to-even.
-/

namespace EntainHW

/-- Error kinds distinguishable by errors.Is at the API boundary:
users.ErrUserNotFound, users.ErrInsufficientFunds,
transactions.ErrDuplicateTransaction, and everything else (wrapped
untyped errors, carried here with their message text). -/
inductive Err where
  | userNotFound
  | insufficientFunds
  | duplicateTransaction
  | other (msg : String)
  deriving Repr, DecidableEq

/-- balance.TxState constant TxWin. -/
def TxWin : String := "win"

/-- balance.TxState constant TxLose. -/
def TxLose : String := "lose"

/-- balance.SourceType constants. -/
def SourceGame : String := "game"

def SourceServer : String := "server"

def SourcePayment : String := "payment"

/-- balance.Transaction: the request one ProcessTransaction call applies. -/
structure Transaction where
  transactionID : String
  userID : Nat
  source : String
  state : String
  amountMinor : Int
  deriving Repr, DecidableEq

/-- Database state: the users table (id, balance) and the transactions
table (transaction_id, user_id).  Lists of rows; the primary keys of the
schema are stated as hypotheses where a proof needs them. -/
structure DB where
  accounts : List (Nat × Int)
  txns : List (String × Nat)
  deriving Repr, DecidableEq

/-- Largest int64 value (postgres BIGINT upper bound). -/
def int64Max : Int := 2 ^ 63 - 1

/-- SELECT balance FROM users WHERE id = uid, first matching row. -/
def findBalance : List (Nat × Int) → Nat → Option Int
  | [], _ => none
  | r :: rs, uid => if r.1 = uid then some r.2 else findBalance rs uid

/-- users.Exists: SELECT EXISTS(SELECT 1 FROM users WHERE id = uid);
a false result becomes users.ErrUserNotFound. -/
def usersExists (db : DB) (uid : Nat) : Except Err Unit :=
  match findBalance db.accounts uid with
  | some _ => Except.ok ()
  | none => Except.error Err.userNotFound

/-- users.LockAndGetBalance: SELECT balance ... FOR UPDATE; a missing row
surfaces as the wrapped untyped sql.ErrNoRows, not as ErrUserNotFound. -/
def lockAndGetBalance (db : DB) (uid : Nat) : Except Err Int :=
  match findBalance db.accounts uid with
  | some b => Except.ok b
  | none => Except.error (Err.other "lock/get balance: sql: no rows in result set")

/-- users.GetBalance (unlocked read): a missing row becomes ErrUserNotFound. -/
def getBalance (db : DB) (uid : Nat) : Except Err Int :=
  match findBalance db.accounts uid with
  | some b => Except.ok b
  | none => Except.error Err.userNotFound

/-- New balance admissible for one updated row: the schema constraint
CHECK (balance greater or equal 0) together with the BIGINT range. -/
def newBalOkB (b : Int) : Bool := decide (0 ≤ b) && decide (b ≤ int64Max)

/-- Every row hit by UPDATE users SET balance = balance + amt WHERE id = uid
produces an admissible new balance (otherwise postgres fails the statement). -/
def allAddOk : List (Nat × Int) → Nat → Int → Bool
  | [], _, _ => true
  | r :: rs, uid, amt =>
    (if r.1 = uid then newBalOkB (r.2 + amt) else true) && allAddOk rs uid amt

/-- Row transformation of UPDATE users SET balance = balance + amt WHERE id = uid. -/
def mapAdd (l : List (Nat × Int)) (uid : Nat) (amt : Int) : List (Nat × Int) :=
  l.map fun r => if r.1 = uid then (r.1, r.2 + amt) else r

/-- users.IncreaseBalance: unconditional UPDATE; the statement itself fails
(no mutation) only if a written row would violate the schema constraints. -/
def increaseBalance (db : DB) (uid : Nat) (amt : Int) : Except Err Unit × DB :=
  if allAddOk db.accounts uid amt then
    (Except.ok (), { db with accounts := mapAdd db.accounts uid amt })
  else
    (Except.error (Err.other "increase balance: constraint violation"), db)

/-- Does UPDATE ... WHERE id = uid AND balance >= amt hit at least one row
(RowsAffected is nonzero)? -/
def anyDecMatch : List (Nat × Int) → Nat → Int → Bool
  | [], _, _ => false
  | r :: rs, uid, amt => (decide (r.1 = uid) && decide (amt ≤ r.2)) || anyDecMatch rs uid amt

/-- Every row hit by the guarded decrease stays within BIGINT range
(its new balance is nonnegative by the WHERE guard itself). -/
def allSubOk : List (Nat × Int) → Nat → Int → Bool
  | [], _, _ => true
  | r :: rs, uid, amt =>
    (if r.1 = uid ∧ amt ≤ r.2 then decide (r.2 - amt ≤ int64Max) else true) && allSubOk rs uid amt

/-- Row transformation of UPDATE users SET balance = balance - amt
WHERE id = uid AND balance >= amt. -/
def mapSub (l : List (Nat × Int)) (uid : Nat) (amt : Int) : List (Nat × Int) :=
  l.map fun r => if r.1 = uid ∧ amt ≤ r.2 then (r.1, r.2 - amt) else r

/-- users.DecreaseBalance: the single guarded UPDATE; zero affected rows
becomes users.ErrInsufficientFunds with no mutation. -/
def decreaseBalance (db : DB) (uid : Nat) (amt : Int) : Except Err Unit × DB :=
  if allSubOk db.accounts uid amt then
    if anyDecMatch db.accounts uid amt then
      (Except.ok (), { db with accounts := mapSub db.accounts uid amt })
    else
      (Except.error Err.insufficientFunds, db)
  else
    (Except.error (Err.other "decrease balance: constraint violation"), db)

/-- Is txid already present in the transactions table? -/
def hasTxid : List (String × Nat) → String → Bool
  | [], _ => false
  | r :: rs, txid => decide (r.1 = txid) || hasTxid rs txid

/-- transactions.Insert: INSERT INTO transactions (transaction_id, user_id);
a violation of the primary key on transaction_id (pg code 23505) becomes
ErrDuplicateTransaction; a missing user violates the foreign key and
surfaces as a wrapped untyped pg error. -/
def txInsert (db : DB) (txid : String) (uid : Nat) : Except Err Unit × DB :=
  if hasTxid db.txns txid then
    (Except.error Err.duplicateTransaction, db)
  else if (findBalance db.accounts uid).isSome then
    (Except.ok (), { db with txns := (txid, uid) :: db.txns })
  else
    (Except.error (Err.other "insert transaction: foreign key violation"), db)

/-- Trace events: one per storage call made by ProcessTransaction, plus
the commit or rollback that ends the atomic unit. -/
inductive Event where
  | existsCheck (uid : Nat)
  | lockRead (uid : Nat)
  | increase (uid : Nat) (amt : Int)
  | decrease (uid : Nat) (amt : Int)
  | insertTx (txid : String) (uid : Nat)
  | commit
  | rollback
  deriving Repr, DecidableEq

/-- The function literal ProcessTransaction passes to pgutils.WithTx,
instrumented with the list of storage calls it performed, in order. -/
def processTxBody (db : DB) (t : Transaction) : Except Err Unit × DB × List Event :=
  match usersExists db t.userID with
  | Except.error e => (Except.error e, db, [Event.existsCheck t.userID])
  | Except.ok _ =>
    match lockAndGetBalance db t.userID with
    | Except.error e => (Except.error e, db, [Event.existsCheck t.userID, Event.lockRead t.userID])
    | Except.ok balance =>
      if t.state = TxWin then
        match increaseBalance db t.userID t.amountMinor with
        | (Except.error e, db2) =>
          (Except.error e, db2,
            [Event.existsCheck t.userID, Event.lockRead t.userID,
             Event.increase t.userID t.amountMinor])
        | (Except.ok _, db2) =>
          match txInsert db2 t.transactionID t.userID with
          | (Except.error e, db3) =>
            (Except.error e, db3,
              [Event.existsCheck t.userID, Event.lockRead t.userID,
               Event.increase t.userID t.amountMinor,
               Event.insertTx t.transactionID t.userID])
          | (Except.ok _, db3) =>
            (Except.ok (), db3,
              [Event.existsCheck t.userID, Event.lockRead t.userID,
               Event.increase t.userID t.amountMinor,
               Event.insertTx t.transactionID t.userID])
      else if t.state = TxLose then
        if balance < t.amountMinor then
          (Except.error Err.insufficientFunds, db,
            [Event.existsCheck t.userID, Event.lockRead t.userID])
        else
          match decreaseBalance db t.userID t.amountMinor with
          | (Except.error e, db2) =>
            (Except.error e, db2,
              [Event.existsCheck t.userID, Event.lockRead t.userID,
               Event.decrease t.userID t.amountMinor])
          | (Except.ok _, db2) =>
            match txInsert db2 t.transactionID t.userID with
            | (Except.error e, db3) =>
              (Except.error e, db3,
                [Event.existsCheck t.userID, Event.lockRead t.userID,
                 Event.decrease t.userID t.amountMinor,
                 Event.insertTx t.transactionID t.userID])
            | (Except.ok _, db3) =>
              (Except.ok (), db3,
                [Event.existsCheck t.userID, Event.lockRead t.userID,
                 Event.decrease t.userID t.amountMinor,
                 Event.insertTx t.transactionID t.userID])
      else
        (Except.error (Err.other ("invalid state: " ++ t.state)), db,
          [Event.existsCheck t.userID, Event.lockRead t.userID])

/-- pgutils.WithTx: run the body; commit its state on success, discard it
(rollback) on error.  The trace records which of the two ended the unit. -/
def withTx (db : DB) (body : DB → Except Err Unit × DB × List Event) :
    Except Err Unit × DB × List Event :=
  match body db with
  | (Except.ok _, db2, evs) => (Except.ok (), db2, evs ++ [Event.commit])
  | (Except.error e, _, evs) => (Except.error e, db, evs ++ [Event.rollback])

/-- balance.ProcessTransaction with its event trace. -/
def processTransactionEv (db : DB) (t : Transaction) : Except Err Unit × DB × List Event :=
  withTx db (fun d => processTxBody d t)

/-- balance.ProcessTransaction: result and post-state. -/
def processTransaction (db : DB) (t : Transaction) : Except Err Unit × DB :=
  ((processTransactionEv db t).1, (processTransactionEv db t).2.1)

/-- A sequence of ProcessTransaction calls, each starting from the
committed state of the previous one. -/
def processSeq (db : DB) : List Transaction → DB
  | [] => db
  | t :: ts => processSeq (processTransaction db t).2 ts

/-- The invariant of section 3 of the spec: every account balance is
nonnegative. -/
def NonNeg (db : DB) : Prop := ∀ r ∈ db.accounts, 0 ≤ r.2

/-- Go unicode.IsSpace (the White_Space property), by code point. -/
def isGoSpace (c : Char) : Bool :=
  let n := c.toNat
  n == 9 || n == 10 || n == 11 || n == 12 || n == 13 || n == 32 ||
    n == 0x85 || n == 0xA0 || n == 0x1680 || (0x2000 ≤ n && n ≤ 0x200A) ||
    n == 0x2028 || n == 0x2029 || n == 0x202F || n == 0x205F || n == 0x3000

/-- Go strings.TrimSpace: drop White_Space characters from both ends. -/
def goTrimSpace (l : List Char) : List Char :=
  ((l.dropWhile isGoSpace).reverse.dropWhile isGoSpace).reverse

/-- Go strings.ToLower on one character.  Go applies the Unicode simple
lowercase mapping per rune; every string this repository compares the
lowered value against is plain ASCII, so the mapping is embedded on the
ASCII letters and is the identity elsewhere. -/
def goToLowerChar (c : Char) : Char :=
  if 65 ≤ c.toNat ∧ c.toNat ≤ 90 then Char.ofNat (c.toNat + 32) else c

/-- Go strings.Split(s, sep) for a one-character separator: the list of
substrings between occurrences of sep; always nonempty. -/
def goSplit (l : List Char) (sep : Char) : List (List Char) :=
  match l with
  | [] => [[]]
  | c :: rest =>
    if c = sep then [] :: goSplit rest sep
    else
      match goSplit rest sep with
      | [] => [[c]]
      | h :: t => (c :: h) :: t

/-- Decimal accumulator of Go strconv.ParseInt: none as soon as a
non-digit is met. -/
def digitsNatAux (acc : Nat) : List Char → Option Nat
  | [] => some acc
  | c :: cs =>
    if c.isDigit then digitsNatAux (acc * 10 + (c.toNat - 48)) cs else none

/-- Go strconv.ParseInt(s, 10, 64): an optional sign, then one or more
decimal digits, value within the signed 64-bit range; otherwise an error
(returned here as none). -/
def parseIntBase10 (s : List Char) : Option Int :=
  match s with
  | [] => none
  | c :: rest =>
    let neg := c = '-'
    let digs := if c = '-' ∨ c = '+' then rest else s
    match digs with
    | [] => none
    | _ =>
      match digitsNatAux 0 digs with
      | none => none
      | some n =>
        if neg then
          if (n : Int) ≤ 2 ^ 63 then some (-(n : Int)) else none
        else
          if (n : Int) ≤ int64Max then some (n : Int) else none

/-- Go two's-complement wraparound of int64 arithmetic. -/
def wrap64 (i : Int) : Int := (i + 2 ^ 63) % 2 ^ 64 - 2 ^ 63

/-- Outcome of parseAmountCents: a value, an error (with the Go message),
or the run-time panic of indexing a string out of range. -/
inductive ParseOutcome where
  | ok (v : Int)
  | err (msg : String)
  | indexOutOfRange
  deriving Repr, DecidableEq

/-- Final arithmetic of parseAmountCents: total := ip*100 + fp (int64,
wrapping), negate if a leading minus was stripped, reject nonpositive. -/
def finishAmount (neg : Bool) (intPart frac : List Char) : ParseOutcome :=
  match parseIntBase10 intPart with
  | none => ParseOutcome.err "invalid amount integer"
  | some ip =>
    match parseIntBase10 frac with
    | none => ParseOutcome.err "invalid amount fractional"
    | some fp =>
      let t0 := wrap64 (ip * 100 + fp)
      let total := if neg then wrap64 (-t0) else t0
      if total ≤ 0 then ParseOutcome.err "amount must be > 0" else ParseOutcome.ok total

/-- The part of api.parseAmountCents after the sign stripping: the dot
split, the fraction length check and padding, and the integer parses
(neg records whether a leading minus was stripped). -/
def parseSigned (neg : Bool) (t2 : List Char) : ParseOutcome :=
  match goSplit t2 '.' with
  | [intPart] => finishAmount neg intPart ['0', '0']
  | [intPart, f] =>
    if 2 < f.length then ParseOutcome.err "amount supports up to 2 decimals"
    else finishAmount neg intPart (f ++ List.replicate (2 - f.length) '0')
  | _ => ParseOutcome.err "invalid amount"

/-- The part of api.parseAmountCents after strings.TrimSpace: the plus
stripping, then the minus stripping on the indexed first character (the
out-of-range index of a lone plus), then the split stage. -/
def parseTrimmed (t0 : List Char) : ParseOutcome :=
  match t0 with
  | [] => ParseOutcome.err "amount required"
  | c0 :: rest0 =>
    let t1 := if c0 = '+' then rest0 else c0 :: rest0
    match t1 with
    | [] => ParseOutcome.indexOutOfRange
    | c1 :: rest1 => parseSigned (c1 = '-') (if c1 = '-' then rest1 else c1 :: rest1)

/-- api.parseAmountCents over the character list of the input.  The Go
code indexes bytes; every branch taken on a byte compares it with an
ASCII character, which agrees with the character-level view (the first
byte of a multi-byte rune is above 127 and equals none of them). -/
def parseAmountCentsL (l : List Char) : ParseOutcome :=
  parseTrimmed (goTrimSpace l)

/-- api.parseAmountCents. -/
def parseAmountCents (s : String) : ParseOutcome := parseAmountCentsL s.data

/-- api.parseTxState over the character list of the state field. -/
def parseTxStateL (l : List Char) : Except String String :=
  let raw := String.mk ((goTrimSpace l).map goToLowerChar)
  if raw = "win" then Except.ok TxWin
  else if raw = "lose" then Except.ok TxLose
  else Except.error "invalid state"

/-- api.parseTxState. -/
def parseTxState (s : String) : Except String String := parseTxStateL s.data

/-- api.parseSourceType over the character list of the Source-Type header. -/
def parseSourceTypeL (l : List Char) : Except String String :=
  let raw := String.mk ((goTrimSpace l).map goToLowerChar)
  if raw = "game" then Except.ok SourceGame
  else if raw = "server" then Except.ok SourceServer
  else if raw = "payment" then Except.ok SourcePayment
  else Except.error "invalid Source-Type"

/-- api.parseSourceType. -/
def parseSourceType (s : String) : Except String String := parseSourceTypeL s.data

/-- Round a/b to the nearest integer, ties to even (the IEEE-754 default
rounding used by Go for int-to-float conversion, float division, and the
fixed-precision decimal formatting of strconv). -/
def roundHalfEven (a b : Nat) : Nat :=
  let q := a / b
  let r := a % b
  if b < 2 * r then q + 1
  else if 2 * r = b ∧ q % 2 = 1 then q + 1
  else q

/-- Position of the highest set bit of n (for 1 ≤ n < 2 to the 64). -/
def floorLog2 (n : Nat) : Nat :=
  (List.range 64).foldl (fun acc e => if 2 ^ e ≤ n then e else acc) 0

/-- The exact value of the Go conversion float64(n) for 0 ≤ n < 2 to the
63: below 2 to the 53 the conversion is exact; above, the value is
rounded to 53 significant bits, ties to even.  The result is returned as
the exact integer it denotes. -/
def float64OfNat (n : Nat) : Nat :=
  if n < 2 ^ 53 then n
  else
    let k := floorLog2 n - 52
    roundHalfEven n (2 ^ k) * 2 ^ k

/-- Is x / 100 at least 2 to the e (e possibly negative)? -/
def le2e (e : Int) (x : Nat) : Bool :=
  if 0 ≤ e then decide (100 * 2 ^ e.toNat ≤ x) else decide (100 ≤ x * 2 ^ (-e).toNat)

/-- The binade of x / 100: the largest e with 2 to the e at most x / 100
(for 1 ≤ x < 2 to the 64, e lies in the searched range). -/
def divExp (x : Nat) : Int :=
  (List.range 71).foldl (fun acc i => if le2e ((i : Int) - 7) x then (i : Int) - 7 else acc) (-7)

/-- The IEEE-754 double nearest x / 100 (x a positive integer), returned
as a dyadic pair (m, ee) denoting m times 2 to the ee, with m the 53-bit
significand. -/
def f64Div100 (x : Nat) : Nat × Int :=
  let e := divExp x
  let m :=
    if 0 ≤ 52 - e then roundHalfEven (x * 2 ^ (52 - e).toNat) 100
    else roundHalfEven x (100 * 2 ^ (e - 52).toNat)
  (m, e - 52)

/-- The integer number of hundredths nearest the dyadic m times 2 to the
ee, ties to even: the value strconv renders when formatting that double
with two fixed decimals. -/
def round2dec (m : Nat) (ee : Int) : Nat :=
  if 0 ≤ ee then m * 100 * 2 ^ ee.toNat
  else roundHalfEven (m * 100) (2 ^ (-ee).toNat)

/-- Two-digit zero-padded decimal rendering. -/
def pad2 (n : Nat) : String := if n < 10 then "0" ++ toString n else toString n

/-- Decimal rendering of c hundredths with exactly two fractional digits. -/
def renderCents (c : Nat) : String := toString (c / 100) ++ "." ++ pad2 (c % 100)

/-- GetBalanceHandler balance rendering: fmt.Sprintf of
float64(bal) / 100.0 with two fixed decimals, for a nonnegative bal
(balances satisfy the nonnegativity constraint of the schema). -/
def encodeBalance (bal : Nat) : String :=
  if bal = 0 then "0.00"
  else renderCents (round2dec (f64Div100 (float64OfNat bal)).1 (f64Div100 (float64OfNat bal)).2)

/-- Numeric value of one decimal digit character. -/
def digitVal (c : Char) : Nat := c.toNat - 48

/-- Value of a string of decimal digits. -/
def decDigits (l : List Char) : Nat := l.foldl (fun a c => a * 10 + digitVal c) 0

/-- Minor-unit value contributed by a fractional part of at most two
digits: a single digit counts tens of a hundredth, two digits count
hundredths, no digits count zero. -/
def fracValPadded (l : List Char) : Nat := decDigits (l ++ List.replicate (2 - l.length) '0')

/-- The primary key of the users table: account ids are unique. -/
def UniqueIds (db : DB) : Prop := (db.accounts.map Prod.fst).Nodup

/-- Balances fit in BIGINT (they do in any state postgres can hold). -/
def BoundedBal (db : DB) : Prop := ∀ r ∈ db.accounts, r.2 ≤ int64Max

/-- Events that mutate storage. -/
def isMutEvent : Event → Bool
  | Event.increase _ _ => true
  | Event.decrease _ _ => true
  | Event.insertTx _ _ => true
  | _ => false

/-! ## Basic storage lemmas -/

theorem findBalance_mem {l : List (Nat × Int)} {uid : Nat} {b : Int}
    (h : findBalance l uid = some b) : (uid, b) ∈ l := by
  induction l with
  | nil => simp [findBalance] at h
  | cons r rs ih =>
    rw [findBalance] at h
    split at h
    · rename_i hr
      injection h with hb
      cases r
      simp_all
    · exact List.mem_cons_of_mem _ (ih h)

theorem allAddOk_bounds {l : List (Nat × Int)} {uid : Nat} {amt : Int}
    (h : allAddOk l uid amt = true) :
    ∀ r ∈ l, r.1 = uid → 0 ≤ r.2 + amt ∧ r.2 + amt ≤ int64Max := by
  induction l with
  | nil => intro r hr; simp at hr
  | cons x xs ih =>
    rw [allAddOk, Bool.and_eq_true] at h
    intro r hr hid
    rcases List.mem_cons.mp hr with rfl | hmem
    · have := h.1
      rw [if_pos hid] at this
      simpa [newBalOkB, decide_eq_true_iff] using this
    · exact ih h.2 r hmem hid

theorem allSubOk_bounds {l : List (Nat × Int)} {uid : Nat} {amt : Int}
    (h : allSubOk l uid amt = true) :
    ∀ r ∈ l, r.1 = uid → amt ≤ r.2 → r.2 - amt ≤ int64Max := by
  induction l with
  | nil => intro r hr; simp at hr
  | cons x xs ih =>
    rw [allSubOk, Bool.and_eq_true] at h
    intro r hr hid hle
    rcases List.mem_cons.mp hr with rfl | hmem
    · have := h.1
      rw [if_pos ⟨hid, hle⟩] at this
      simpa [decide_eq_true_iff] using this
    · exact ih h.2 r hmem hid hle

theorem nonNeg_increase {db : DB} {uid : Nat} {amt : Int}
    (h : NonNeg db) : NonNeg (increaseBalance db uid amt).2 := by
  rw [increaseBalance]
  split
  · rename_i hall
    intro r hr
    rcases List.mem_map.mp hr with ⟨x, hx, hxr⟩
    by_cases hid : x.1 = uid
    · rw [if_pos hid] at hxr
      subst hxr
      exact (allAddOk_bounds hall x hx hid).1
    · rw [if_neg hid] at hxr
      subst hxr
      exact h x hx
  · exact h

theorem nonNeg_decrease {db : DB} {uid : Nat} {amt : Int}
    (h : NonNeg db) : NonNeg (decreaseBalance db uid amt).2 := by
  rw [decreaseBalance]
  split
  · split
    · intro r hr
      rcases List.mem_map.mp hr with ⟨x, hx, hxr⟩
      by_cases hid : x.1 = uid ∧ amt ≤ x.2
      · rw [if_pos hid] at hxr
        subst hxr
        simpa using hid.2
      · rw [if_neg hid] at hxr
        subst hxr
        exact h x hx
    · exact h
  · exact h

theorem txInsert_accounts (db : DB) (txid : String) (uid : Nat) :
    (txInsert db txid uid).2.accounts = db.accounts := by
  rw [txInsert]
  split
  · rfl
  · split <;> rfl

theorem increase_error_state {db : DB} {uid : Nat} {amt : Int} {e : Err}
    (h : (increaseBalance db uid amt).1 = Except.error e) :
    (increaseBalance db uid amt).2 = db := by
  rw [increaseBalance] at h ⊢
  split at h
  · simp at h
  · simp_all [increaseBalance]

theorem decrease_error_state {db : DB} {uid : Nat} {amt : Int} {e : Err}
    (h : (decreaseBalance db uid amt).1 = Except.error e) :
    (decreaseBalance db uid amt).2 = db := by
  rw [decreaseBalance] at h ⊢
  split at h
  · split at h
    · simp at h
    · simp_all [decreaseBalance]
  · simp_all [decreaseBalance]

theorem nonNeg_of_accounts_eq {db db' : DB} (hacc : db'.accounts = db.accounts)
    (h : NonNeg db) : NonNeg db' := by
  intro r hr
  exact h r (hacc ▸ hr)

theorem nonNeg_body {db : DB} {t : Transaction} (h : NonNeg db) :
    NonNeg (processTxBody db t).2.1 := by
  rw [processTxBody]
  split
  · exact h
  · split
    · exact h
    · split
      · split
        · rename_i e db2 heq
          have := @nonNeg_increase db t.userID t.amountMinor h
          rw [heq] at this
          exact this
        · rename_i db2 heq
          have h2 : NonNeg db2 := by
            have := @nonNeg_increase db t.userID t.amountMinor h
            rw [heq] at this
            exact this
          split
          · rename_i e db3 heq2
            refine nonNeg_of_accounts_eq ?_ h2
            have := txInsert_accounts db2 t.transactionID t.userID
            rw [heq2] at this
            exact this
          · rename_i db3 heq2
            refine nonNeg_of_accounts_eq ?_ h2
            have := txInsert_accounts db2 t.transactionID t.userID
            rw [heq2] at this
            exact this
      · split
        · split
          · exact h
          · split
            · rename_i e db2 heq
              have := @nonNeg_decrease db t.userID t.amountMinor h
              rw [heq] at this
              exact this
            · rename_i db2 heq
              have h2 : NonNeg db2 := by
                have := @nonNeg_decrease db t.userID t.amountMinor h
                rw [heq] at this
                exact this
              split
              · rename_i e db3 heq2
                refine nonNeg_of_accounts_eq ?_ h2
                have := txInsert_accounts db2 t.transactionID t.userID
                rw [heq2] at this
                exact this
              · rename_i db3 heq2
                refine nonNeg_of_accounts_eq ?_ h2
                have := txInsert_accounts db2 t.transactionID t.userID
                rw [heq2] at this
                exact this
        · exact h

theorem nonNeg_processTransaction {db : DB} {t : Transaction} (h : NonNeg db) :
    NonNeg (processTransaction db t).2 := by
  rw [processTransaction, processTransactionEv, withTx]
  have hb := nonNeg_body (t := t) h
  split
  · rename_i db2 evs heq
    rw [heq] at hb
    exact hb
  · exact h

theorem nonNeg_processSeq {db : DB} {ts : List Transaction} (h : NonNeg db) :
    NonNeg (processSeq db ts) := by
  induction ts generalizing db with
  | nil => exact h
  | cons t ts ih =>
    rw [processSeq]
    exact ih (nonNeg_processTransaction h)

theorem anyDecMatch_false_allSubOk {l : List (Nat × Int)} {uid : Nat} {amt : Int}
    (h : anyDecMatch l uid amt = false) : allSubOk l uid amt = true := by
  induction l with
  | nil => rfl
  | cons r rs ih =>
    rw [anyDecMatch, Bool.or_eq_false_iff, Bool.and_eq_false_iff] at h
    rw [allSubOk, Bool.and_eq_true]
    refine ⟨?_, ih h.2⟩
    rcases h.1 with hid | hle
    · rw [if_neg]
      intro hc
      simp [hc.1] at hid
    · rw [if_neg]
      intro hc
      simp [hc.2] at hle

theorem decrease_ok_state {db : DB} {uid : Nat} {amt : Int}
    (h : (decreaseBalance db uid amt).1 = Except.ok ()) :
    (decreaseBalance db uid amt).2.accounts = mapSub db.accounts uid amt ∧
      anyDecMatch db.accounts uid amt = true := by
  rw [decreaseBalance] at h ⊢
  split at h
  · rename_i hall
    split at h
    · rename_i hmatch
      simp [hall, hmatch]
    · simp at h
  · simp at h

theorem process_lose_insufficient {db : DB} {t : Transaction} {b : Int}
    (hfb : findBalance db.accounts t.userID = some b)
    (hlose : t.state = TxLose) (hlt : b < t.amountMinor) :
    processTransaction db t = (Except.error Err.insufficientFunds, db) := by
  simp [processTransaction, processTransactionEv, withTx, processTxBody, usersExists,
    lockAndGetBalance, hfb, hlose, TxLose, TxWin, hlt]

/-- C1: starting from any nonnegative state, every sequence of
ProcessTransaction calls keeps every account balance nonnegative; a lose
adjustment whose amount exceeds the locked balance is rejected with
ErrInsufficientFunds and leaves the state unchanged; DecreaseBalance is
the single guarded update: on any failure it leaves the state unchanged,
when it succeeds the only rows changed are those whose balance was at
least the amount (so the written balance is nonnegative), and when no
row satisfies the guard it fails with ErrInsufficientFunds and changes
nothing. -/
theorem c1_nonneg_invariant :
    (∀ (db : DB) (ts : List Transaction), NonNeg db → NonNeg (processSeq db ts)) ∧
    (∀ (db : DB) (t : Transaction) (b : Int), t.state = TxLose →
      findBalance db.accounts t.userID = some b → b < t.amountMinor →
      processTransaction db t = (Except.error Err.insufficientFunds, db)) ∧
    (∀ (db : DB) (uid : Nat) (amt : Int) (e : Err),
      (decreaseBalance db uid amt).1 = Except.error e →
      (decreaseBalance db uid amt).2 = db) ∧
    (∀ (db : DB) (uid : Nat) (amt : Int),
      (decreaseBalance db uid amt).1 = Except.ok () →
      (decreaseBalance db uid amt).2.accounts = mapSub db.accounts uid amt ∧
        anyDecMatch db.accounts uid amt = true) ∧
    (∀ (db : DB) (uid : Nat) (amt : Int), anyDecMatch db.accounts uid amt = false →
      decreaseBalance db uid amt = (Except.error Err.insufficientFunds, db)) := by
  refine ⟨?_, ?_, ?_, ?_, ?_⟩
  · intro db ts h
    exact nonNeg_processSeq h
  · intro db t b hlose hfb hlt
    exact process_lose_insufficient hfb hlose hlt
  · intro db uid amt e h
    exact decrease_error_state h
  · intro db uid amt h
    exact decrease_ok_state h
  · intro db uid amt h
    rw [decreaseBalance, if_pos (anyDecMatch_false_allSubOk h), if_neg]
    simp [h]

/-- Witness for C1 at a concrete state and request. -/
theorem c1_nonneg_invariant_witness :
    NonNeg (processSeq ⟨[(1, 50)], []⟩
      [⟨"t1", 1, "game", "win", 25⟩, ⟨"t2", 1, "game", "lose", 60⟩]) ∧
    processTransaction ⟨[(2, 10)], []⟩ ⟨"t3", 2, "game", "lose", 60⟩ =
      (Except.error Err.insufficientFunds, ⟨[(2, 10)], []⟩) := by
  constructor
  · exact c1_nonneg_invariant.1 ⟨[(1, 50)], []⟩ _ (by unfold NonNeg; decide)
  · exact c1_nonneg_invariant.2.1 ⟨[(2, 10)], []⟩ ⟨"t3", 2, "game", "lose", 60⟩ 10
      (by decide) (by decide) (by decide)

/-! ## Inversion lemmas for the atomic unit -/

theorem increase_ok_inv {db db2 : DB} {uid : Nat} {amt : Int} {u : Unit}
    (h : increaseBalance db uid amt = (Except.ok u, db2)) :
    db2 = { db with accounts := mapAdd db.accounts uid amt } ∧
      allAddOk db.accounts uid amt = true := by
  rw [increaseBalance] at h
  split at h
  · rename_i hall
    injection h with h1 h2
    exact ⟨h2.symm, hall⟩
  · simp at h

theorem decrease_ok_inv {db db2 : DB} {uid : Nat} {amt : Int} {u : Unit}
    (h : decreaseBalance db uid amt = (Except.ok u, db2)) :
    db2 = { db with accounts := mapSub db.accounts uid amt } ∧
      anyDecMatch db.accounts uid amt = true := by
  rw [decreaseBalance] at h
  split at h
  · split at h
    · rename_i hmatch
      injection h with h1 h2
      exact ⟨h2.symm, hmatch⟩
    · simp at h
  · simp at h

theorem txInsert_ok_inv {db db2 : DB} {txid : String} {uid : Nat} {u : Unit}
    (h : txInsert db txid uid = (Except.ok u, db2)) :
    db2 = { db with txns := (txid, uid) :: db.txns } ∧
      hasTxid db.txns txid = false := by
  rw [txInsert] at h
  split at h
  · simp at h
  · rename_i hdup
    split at h
    · injection h with h1 h2
      exact ⟨h2.symm, by simpa using hdup⟩
    · simp at h

theorem body_ok_inv {db db2 : DB} {t : Transaction} {evs : List Event}
    (h : processTxBody db t = (Except.ok (), db2, evs)) :
    hasTxid db.txns t.transactionID = false ∧
      db2.txns = (t.transactionID, t.userID) :: db.txns ∧
      ((t.state = TxWin ∧
          db2.accounts = mapAdd db.accounts t.userID t.amountMinor ∧
          evs = [Event.existsCheck t.userID, Event.lockRead t.userID,
            Event.increase t.userID t.amountMinor,
            Event.insertTx t.transactionID t.userID]) ∨
        (t.state = TxLose ∧
          db2.accounts = mapSub db.accounts t.userID t.amountMinor ∧
          evs = [Event.existsCheck t.userID, Event.lockRead t.userID,
            Event.decrease t.userID t.amountMinor,
            Event.insertTx t.transactionID t.userID])) := by
  rw [processTxBody] at h
  split at h
  · simp at h
  · split at h
    · simp at h
    · split at h
      · rename_i hwin
        split at h
        · simp at h
        · rename_i db2' heqInc
          split at h
          · simp at h
          · rename_i db3 heqIns
            injection h with h1 h2
            injection h2 with h2 h3
            subst h2
            obtain ⟨hdb2', hall⟩ := increase_ok_inv heqInc
            subst hdb2'
            obtain ⟨hdb3, hdup⟩ := txInsert_ok_inv heqIns
            subst hdb3
            exact ⟨hdup, rfl, Or.inl ⟨hwin, rfl, h3.symm⟩⟩
      · split at h
        · rename_i hlose
          split at h
          · simp at h
          · split at h
            · simp at h
            · rename_i db2' heqDec
              split at h
              · simp at h
              · rename_i db3 heqIns
                injection h with h1 h2
                injection h2 with h2 h3
                subst h2
                obtain ⟨hdb2', hmatch⟩ := decrease_ok_inv heqDec
                subst hdb2'
                obtain ⟨hdb3, hdup⟩ := txInsert_ok_inv heqIns
                subst hdb3
                exact ⟨hdup, rfl, Or.inr ⟨hlose, rfl, h3.symm⟩⟩
        · simp at h

/-- C3: the whole adjustment is atomic: whenever ProcessTransaction
returns an error the committed state is exactly the starting state (no
partial mutation is observable), and whenever it returns success the
committed state carries both effects together: the new transaction
record and the balance update matching the request kind; moreover the
atomic unit ends in a commit exactly when the call succeeds. -/
theorem c3_atomic_unit :
    (∀ (db : DB) (t : Transaction) (e : Err),
      (processTransaction db t).1 = Except.error e → (processTransaction db t).2 = db) ∧
    (∀ (db : DB) (t : Transaction),
      (processTransaction db t).1 = Except.ok () →
      (processTransaction db t).2.txns = (t.transactionID, t.userID) :: db.txns ∧
        ((t.state = TxWin ∧
            (processTransaction db t).2.accounts = mapAdd db.accounts t.userID t.amountMinor) ∨
          (t.state = TxLose ∧
            (processTransaction db t).2.accounts = mapSub db.accounts t.userID t.amountMinor))) ∧
    (∀ (db : DB) (t : Transaction),
      (processTransactionEv db t).2.2.getLast? = some Event.commit ↔
        (processTransaction db t).1 = Except.ok ()) := by
  refine ⟨?_, ?_, ?_⟩
  · intro db t e h
    rw [processTransaction, processTransactionEv, withTx] at h ⊢
    split at h
    · simp at h
    · simp
  · intro db t h
    rw [processTransaction, processTransactionEv, withTx] at h ⊢
    split at h
    · rename_i db2 evs heq
      obtain ⟨hdup, htx, hrest⟩ := body_ok_inv heq
      simp only
      refine ⟨htx, ?_⟩
      rcases hrest with ⟨hw, hacc, _⟩ | ⟨hl, hacc, _⟩
      · exact Or.inl ⟨hw, hacc⟩
      · exact Or.inr ⟨hl, hacc⟩
    · simp at h
  · intro db t
    rw [processTransaction, processTransactionEv, withTx]
    split
    · simp [List.getLast?_concat]
    · simp [List.getLast?_concat]

/-- Witness for C3 at a concrete state and request. -/
theorem c3_atomic_unit_witness :
    (processTransaction ⟨[(7, 0)], []⟩ ⟨"dup", 8, "server", "win", 100⟩).2 =
      ⟨[(7, 0)], []⟩ ∧
    (processTransaction ⟨[(7, 0)], [("w", 7)]⟩ ⟨"w2", 7, "server", "win", 100⟩).2.txns =
      [("w2", 7), ("w", 7)] := by
  constructor
  · exact c3_atomic_unit.1 ⟨[(7, 0)], []⟩ ⟨"dup", 8, "server", "win", 100⟩
      Err.userNotFound (by rfl)
  · exact (c3_atomic_unit.2.1 ⟨[(7, 0)], [("w", 7)]⟩ ⟨"w2", 7, "server", "win", 100⟩
      (by rfl)).1

/-! ## Step order of the atomic unit -/

theorem body_trace_shape (db : DB) (t : Transaction) :
    (processTxBody db t).2.2 = [Event.existsCheck t.userID] ∨
      ∃ rest, (processTxBody db t).2.2 =
        Event.existsCheck t.userID :: Event.lockRead t.userID :: rest := by
  rw [processTxBody]
  repeat' split
  all_goals simp

theorem body_win_front {db : DB} {t : Transaction} {b : Int}
    (hfb : findBalance db.accounts t.userID = some b) (hw : t.state = TxWin) :
    ∃ rest, (processTxBody db t).2.2 =
      Event.existsCheck t.userID :: Event.lockRead t.userID ::
        Event.increase t.userID t.amountMinor :: rest := by
  rw [processTxBody]
  simp only [usersExists, lockAndGetBalance, hfb, hw, if_pos]
  split
  · simp
  · split <;> simp

theorem body_lose_front {db : DB} {t : Transaction} {b : Int}
    (hfb : findBalance db.accounts t.userID = some b) (hl : t.state = TxLose)
    (hge : t.amountMinor ≤ b) :
    ∃ rest, (processTxBody db t).2.2 =
      Event.existsCheck t.userID :: Event.lockRead t.userID ::
        Event.decrease t.userID t.amountMinor :: rest := by
  rw [processTxBody]
  simp only [usersExists, lockAndGetBalance, hfb, hl]
  rw [if_neg (show ¬ TxLose = TxWin by decide), if_pos trivial,
    if_neg (show ¬ b < t.amountMinor by omega)]
  split
  · simp
  · split <;> simp

theorem ev_front_of_body_front {db : DB} {t : Transaction} {e1 e2 e3 : Event}
    (h : ∃ rest, (processTxBody db t).2.2 = e1 :: e2 :: e3 :: rest) :
    ∃ rest, (processTransactionEv db t).2.2 = e1 :: e2 :: e3 :: rest := by
  obtain ⟨rest, hpre⟩ := h
  rw [processTransactionEv, withTx]
  split
  · rename_i db2 evs heq
    rw [heq] at hpre
    simp only at hpre
    refine ⟨rest ++ [Event.commit], ?_⟩
    simp only
    rw [hpre]
    simp
  · rename_i e db2 evs heq
    rw [heq] at hpre
    simp only at hpre
    refine ⟨rest ++ [Event.rollback], ?_⟩
    simp only
    rw [hpre]
    simp

/-- C4: inside one atomic unit ProcessTransaction performs, in order,
the account existence check (failing the unit with ErrUserNotFound and
touching nothing when the account is absent), the locked balance read,
then for a win the unconditional increase and for a lose the pre-check
of the locked balance against the amount (failing with
ErrInsufficientFunds) followed by the guarded decrease, then the
transaction-record insert, and a commit exactly on full success; no
storage mutation ever precedes the existence check or the locked read. -/
theorem c4_step_order :
    (∀ (db : DB) (t : Transaction), findBalance db.accounts t.userID = none →
      processTransactionEv db t = (Except.error Err.userNotFound, db,
        [Event.existsCheck t.userID, Event.rollback])) ∧
    (∀ (db : DB) (t : Transaction) (b : Int),
      findBalance db.accounts t.userID = some b → t.state = TxWin →
      ∃ rest, (processTransactionEv db t).2.2 =
        Event.existsCheck t.userID :: Event.lockRead t.userID ::
          Event.increase t.userID t.amountMinor :: rest) ∧
    (∀ (db : DB) (t : Transaction) (b : Int),
      findBalance db.accounts t.userID = some b → t.state = TxLose →
      b < t.amountMinor →
      processTransactionEv db t = (Except.error Err.insufficientFunds, db,
        [Event.existsCheck t.userID, Event.lockRead t.userID, Event.rollback])) ∧
    (∀ (db : DB) (t : Transaction) (b : Int),
      findBalance db.accounts t.userID = some b → t.state = TxLose →
      t.amountMinor ≤ b →
      ∃ rest, (processTransactionEv db t).2.2 =
        Event.existsCheck t.userID :: Event.lockRead t.userID ::
          Event.decrease t.userID t.amountMinor :: rest) ∧
    (∀ (db : DB) (t : Transaction),
      (processTransaction db t).1 = Except.ok () →
      (t.state = TxWin ∧ (processTransactionEv db t).2.2 =
          [Event.existsCheck t.userID, Event.lockRead t.userID,
            Event.increase t.userID t.amountMinor,
            Event.insertTx t.transactionID t.userID, Event.commit]) ∨
        (t.state = TxLose ∧ (processTransactionEv db t).2.2 =
          [Event.existsCheck t.userID, Event.lockRead t.userID,
            Event.decrease t.userID t.amountMinor,
            Event.insertTx t.transactionID t.userID, Event.commit])) ∧
    (∀ (db : DB) (t : Transaction),
      ∀ e ∈ (processTransactionEv db t).2.2.take 2, isMutEvent e = false) := by
  refine ⟨?_, ?_, ?_, ?_, ?_, ?_⟩
  · intro db t h
    simp [processTransactionEv, withTx, processTxBody, usersExists, h]
  · intro db t b hfb hw
    exact ev_front_of_body_front (body_win_front hfb hw)
  · intro db t b hfb hl hlt
    simp [processTransactionEv, withTx, processTxBody, usersExists, lockAndGetBalance,
      hfb, hl, TxLose, TxWin, hlt]
  · intro db t b hfb hl hge
    exact ev_front_of_body_front (body_lose_front hfb hl hge)
  · intro db t h
    rw [processTransaction] at h
    rw [processTransactionEv, withTx] at h ⊢
    split at h
    · rename_i db2 evs heq
      obtain ⟨hdup, htx, hrest⟩ := body_ok_inv heq
      rcases hrest with ⟨hw, hacc, hevs⟩ | ⟨hl, hacc, hevs⟩
      · exact Or.inl ⟨hw, by simp [hevs]⟩
      · exact Or.inr ⟨hl, by simp [hevs]⟩
    · simp at h
  · intro db t
    have hsh := body_trace_shape db t
    rw [processTransactionEv, withTx]
    split
    · rename_i db2 evs heq
      rw [heq] at hsh
      simp only at hsh
      rcases hsh with hevs | ⟨rest, hevs⟩ <;>
        simp [hevs, isMutEvent, List.take]
    · rename_i e db2 evs heq
      rw [heq] at hsh
      simp only at hsh
      rcases hsh with hevs | ⟨rest, hevs⟩ <;>
        simp [hevs, isMutEvent, List.take]

/-- Witness for C4 at a concrete state and request. -/
theorem c4_step_order_witness :
    processTransactionEv ⟨[(1, 5)], []⟩ ⟨"x", 2, "game", "win", 10⟩ =
      (Except.error Err.userNotFound, ⟨[(1, 5)], []⟩,
        [Event.existsCheck 2, Event.rollback]) ∧
    processTransactionEv ⟨[(1, 5)], []⟩ ⟨"x", 1, "game", "lose", 10⟩ =
      (Except.error Err.insufficientFunds, ⟨[(1, 5)], []⟩,
        [Event.existsCheck 1, Event.lockRead 1, Event.rollback]) := by
  constructor
  · exact c4_step_order.1 ⟨[(1, 5)], []⟩ ⟨"x", 2, "game", "win", 10⟩ (by rfl)
  · exact c4_step_order.2.2.1 ⟨[(1, 5)], []⟩ ⟨"x", 1, "game", "lose", 10⟩ 5
      (by rfl) (by rfl) (by decide)

/-! ## Source-type noninterference and the shielded locked read -/

/-- C7: ProcessTransaction never reads the Source field: two requests
differing only in their source type (each one of game, server, payment)
produce the same outcome, the same committed state and the same trace. -/
theorem c7_source_noninterference :
    ∀ (db : DB) (t : Transaction) (s1 s2 : String),
      s1 ∈ [SourceGame, SourceServer, SourcePayment] →
      s2 ∈ [SourceGame, SourceServer, SourcePayment] →
      processTransactionEv db { t with source := s1 } =
        processTransactionEv db { t with source := s2 } := by
  intro db t s1 s2 h1 h2
  cases t
  rfl

/-- Witness for C7 at a concrete state and request. -/
theorem c7_source_noninterference_witness :
    processTransactionEv ⟨[(1, 0)], []⟩ ⟨"t1", 1, SourceGame, "win", 10⟩ =
      processTransactionEv ⟨[(1, 0)], []⟩ ⟨"t1", 1, SourcePayment, "win", 10⟩ := by
  exact c7_source_noninterference ⟨[(1, 0)], []⟩ ⟨"t1", 1, SourceGame, "win", 10⟩
    SourceGame SourcePayment (by simp) (by simp)

theorem increase_error_inv {db db2 : DB} {uid : Nat} {amt : Int} {e : Err}
    (h : increaseBalance db uid amt = (Except.error e, db2)) :
    e = Err.other "increase balance: constraint violation" ∧ db2 = db := by
  rw [increaseBalance] at h
  split at h
  · simp at h
  · injection h with h1 h2
    injection h1 with h1
    exact ⟨h1.symm, h2.symm⟩

theorem decrease_error_inv {db db2 : DB} {uid : Nat} {amt : Int} {e : Err}
    (h : decreaseBalance db uid amt = (Except.error e, db2)) :
    (e = Err.insufficientFunds ∨ e = Err.other "decrease balance: constraint violation") ∧
      db2 = db := by
  rw [decreaseBalance] at h
  split at h
  · split at h
    · simp at h
    · injection h with h1 h2
      injection h1 with h1
      exact ⟨Or.inl h1.symm, h2.symm⟩
  · injection h with h1 h2
    injection h1 with h1
    exact ⟨Or.inr h1.symm, h2.symm⟩

theorem txInsert_error_inv {db db2 : DB} {txid : String} {uid : Nat} {e : Err}
    (h : txInsert db txid uid = (Except.error e, db2)) :
    (e = Err.duplicateTransaction ∨
        e = Err.other "insert transaction: foreign key violation") ∧
      db2 = db := by
  rw [txInsert] at h
  split at h
  · injection h with h1 h2
    injection h1 with h1
    exact ⟨Or.inl h1.symm, h2.symm⟩
  · split at h
    · simp at h
    · injection h with h1 h2
      injection h1 with h1
      exact ⟨Or.inr h1.symm, h2.symm⟩

theorem invalid_state_msg_ne (s : String) :
    Err.other ("invalid state: " ++ s) ≠
      Err.other "lock/get balance: sql: no rows in result set" := by
  intro h
  injection h with h1
  have h2 := congrArg String.data h1
  simp [String.data_append] at h2

theorem body_no_lock_error {db db2 : DB} {t : Transaction} {e : Err} {evs : List Event}
    (h : processTxBody db t = (Except.error e, db2, evs)) :
    e ≠ Err.other "lock/get balance: sql: no rows in result set" := by
  rw [processTxBody] at h
  split at h
  · rename_i heq1
    rw [usersExists] at heq1
    split at heq1
    · simp at heq1
    · injection heq1 with heq1
      injection h with h1 h2
      injection h1 with h1
      rw [← h1, ← heq1]
      simp
  · rename_i heq1
    split at h
    · rename_i heq2
      rw [usersExists] at heq1
      split at heq1
      · rename_i b hfb
        rw [lockAndGetBalance, hfb] at heq2
        simp at heq2
      · simp at heq1
    · split at h
      · split at h
        · rename_i heqInc
          injection h with h1 h2
          injection h1 with h1
          obtain ⟨he, _⟩ := increase_error_inv heqInc
          rw [← h1, he]
          simp
        · split at h
          · rename_i heqIns
            injection h with h1 h2
            injection h1 with h1
            obtain ⟨he, _⟩ := txInsert_error_inv heqIns
            rw [← h1]
            rcases he with he | he <;> rw [he] <;> simp
          · simp at h
      · split at h
        · split at h
          · injection h with h1 h2
            injection h1 with h1
            rw [← h1]
            simp
          · split at h
            · rename_i heqDec
              injection h with h1 h2
              injection h1 with h1
              obtain ⟨he, _⟩ := decrease_error_inv heqDec
              rw [← h1]
              rcases he with he | he <;> rw [he] <;> simp
            · split at h
              · rename_i heqIns
                injection h with h1 h2
                injection h1 with h1
                obtain ⟨he, _⟩ := txInsert_error_inv heqIns
                rw [← h1]
                rcases he with he | he <;> rw [he] <;> simp
              · simp at h
        · injection h with h1 h2
          injection h1 with h1
          rw [← h1]
          exact invalid_state_msg_ne t.state

/-- C10: the locked read maps a missing account row to the wrapped
untyped no-rows error, never to ErrUserNotFound; and inside
ProcessTransaction that branch is unreachable: whenever the existence
check of the same atomic unit succeeded, the locked read finds the row,
and no ProcessTransaction outcome ever carries the no-rows error. -/
theorem c10_shielded_locked_read :
    (∀ (db : DB) (uid : Nat), usersExists db uid = Except.ok () →
      ∃ b, lockAndGetBalance db uid = Except.ok b) ∧
    (∀ (db : DB) (uid : Nat), findBalance db.accounts uid = none →
      lockAndGetBalance db uid =
        Except.error (Err.other "lock/get balance: sql: no rows in result set") ∧
      Err.other "lock/get balance: sql: no rows in result set" ≠ Err.userNotFound) ∧
    (∀ (db : DB) (t : Transaction),
      (processTransaction db t).1 ≠
        Except.error (Err.other "lock/get balance: sql: no rows in result set")) := by
  refine ⟨?_, ?_, ?_⟩
  · intro db uid h
    rw [usersExists] at h
    split at h
    · rename_i b hfb
      exact ⟨b, by rw [lockAndGetBalance, hfb]⟩
    · simp at h
  · intro db uid h
    exact ⟨by rw [lockAndGetBalance, h], by simp⟩
  · intro db t h
    rw [processTransaction, processTransactionEv, withTx] at h
    split at h
    · simp at h
    · rename_i e db2 evs heq
      simp only at h
      injection h with h1
      exact body_no_lock_error heq h1

/-- Witness for C10 at a concrete state. -/
theorem c10_shielded_locked_read_witness :
    (∃ b, lockAndGetBalance ⟨[(3, 42)], []⟩ 3 = Except.ok b) ∧
    lockAndGetBalance ⟨[(3, 42)], []⟩ 4 =
      Except.error (Err.other "lock/get balance: sql: no rows in result set") := by
  constructor
  · exact c10_shielded_locked_read.1 ⟨[(3, 42)], []⟩ 3 (by rfl)
  · exact (c10_shielded_locked_read.2.1 ⟨[(3, 42)], []⟩ 4 (by rfl)).1

/-! ## Idempotence on the transaction identifier -/

theorem process_ok_txns {db db1 : DB} {t : Transaction}
    (h : processTransaction db t = (Except.ok (), db1)) :
    db1.txns = (t.transactionID, t.userID) :: db.txns := by
  rw [processTransaction, processTransactionEv, withTx] at h
  split at h
  · rename_i db2 evs heq
    simp only at h
    injection h with h1 h2
    obtain ⟨_, htx, _⟩ := body_ok_inv heq
    rw [← h2]
    exact htx
  · simp only at h
    injection h with h1 h2
    simp at h1

theorem findBalance_val_unique {l : List (Nat × Int)} {uid : Nat} {b : Int}
    (hfb : findBalance l uid = some b) (hnd : (l.map Prod.fst).Nodup) :
    ∀ r ∈ l, r.1 = uid → r.2 = b := by
  induction l with
  | nil => intro r hr; simp at hr
  | cons x xs ih =>
    rw [List.map_cons, List.nodup_cons] at hnd
    rw [findBalance] at hfb
    intro r hr hid
    rcases List.mem_cons.mp hr with rfl | hmem
    · rw [if_pos hid] at hfb
      injection hfb
    · split at hfb
      · rename_i hx
        exfalso
        apply hnd.1
        rw [hx, ← hid]
        exact List.mem_map.mpr ⟨r, hmem, rfl⟩
      · exact ih hfb hnd.2 r hmem hid

theorem allAddOk_of_rows {l : List (Nat × Int)} {uid : Nat} {amt : Int}
    (h : ∀ r ∈ l, r.1 = uid → newBalOkB (r.2 + amt) = true) :
    allAddOk l uid amt = true := by
  induction l with
  | nil => rfl
  | cons x xs ih =>
    rw [allAddOk, Bool.and_eq_true]
    refine ⟨?_, ih fun r hr => h r (List.mem_cons_of_mem _ hr)⟩
    split
    · rename_i hx
      exact h x (List.mem_cons_self _ _) hx
    · rfl

theorem allSubOk_of_rows {l : List (Nat × Int)} {uid : Nat} {amt : Int}
    (h : ∀ r ∈ l, r.1 = uid → amt ≤ r.2 → r.2 - amt ≤ int64Max) :
    allSubOk l uid amt = true := by
  induction l with
  | nil => rfl
  | cons x xs ih =>
    rw [allSubOk, Bool.and_eq_true]
    refine ⟨?_, ih fun r hr => h r (List.mem_cons_of_mem _ hr)⟩
    split
    · rename_i hx
      simpa using h x (List.mem_cons_self _ _) hx.1 hx.2
    · rfl

theorem anyDecMatch_of_mem {l : List (Nat × Int)} {uid : Nat} {amt b : Int}
    (hmem : (uid, b) ∈ l) (hle : amt ≤ b) : anyDecMatch l uid amt = true := by
  induction l with
  | nil => simp at hmem
  | cons x xs ih =>
    rw [anyDecMatch, Bool.or_eq_true]
    rcases List.mem_cons.mp hmem with rfl | hmem2
    · exact Or.inl (by simp [hle])
    · exact Or.inr (ih hmem2)

theorem body_win_dup {db : DB} {t : Transaction} {b : Int}
    (hfb : findBalance db.accounts t.userID = some b) (hw : t.state = TxWin)
    (hall : allAddOk db.accounts t.userID t.amountMinor = true)
    (hdup : hasTxid db.txns t.transactionID = true) :
    processTxBody db t = (Except.error Err.duplicateTransaction,
      { db with accounts := mapAdd db.accounts t.userID t.amountMinor },
      [Event.existsCheck t.userID, Event.lockRead t.userID,
        Event.increase t.userID t.amountMinor,
        Event.insertTx t.transactionID t.userID]) := by
  rw [processTxBody]
  simp only [usersExists, lockAndGetBalance, hfb, hw]
  rw [if_pos trivial, increaseBalance, if_pos hall]
  simp only [txInsert, hdup]
  rw [if_pos trivial]

theorem body_lose_dup {db : DB} {t : Transaction} {b : Int}
    (hfb : findBalance db.accounts t.userID = some b) (hl : t.state = TxLose)
    (hge : t.amountMinor ≤ b)
    (hsub : allSubOk db.accounts t.userID t.amountMinor = true)
    (hdup : hasTxid db.txns t.transactionID = true) :
    processTxBody db t = (Except.error Err.duplicateTransaction,
      { db with accounts := mapSub db.accounts t.userID t.amountMinor },
      [Event.existsCheck t.userID, Event.lockRead t.userID,
        Event.decrease t.userID t.amountMinor,
        Event.insertTx t.transactionID t.userID]) := by
  have hmatch : anyDecMatch db.accounts t.userID t.amountMinor = true :=
    anyDecMatch_of_mem (findBalance_mem hfb) hge
  rw [processTxBody]
  simp only [usersExists, lockAndGetBalance, hfb, hl]
  rw [if_neg (show ¬ TxLose = TxWin by decide), if_pos trivial,
    if_neg (show ¬ b < t.amountMinor by omega)]
  rw [decreaseBalance, if_pos hsub, if_pos hmatch]
  simp only [txInsert, hdup]
  rw [if_pos trivial]

/-- C2: idempotence on the transaction identifier, globally across
accounts: after a successful ProcessTransaction call, any second call
reusing the same transactionId (against the same or another account,
with a positive amount, an existing target account and, for a lose,
sufficient locked balance) reaches the record insert, hits the primary
key on transaction_id, returns ErrDuplicateTransaction, and its atomic
unit is rolled back, leaving every balance exactly as after the first
call. -/
theorem c2_idempotent_txid :
    ∀ (db db1 : DB) (t1 t2 : Transaction) (b2 : Int),
      processTransaction db t1 = (Except.ok (), db1) →
      t2.transactionID = t1.transactionID →
      UniqueIds db1 → NonNeg db1 → BoundedBal db1 →
      0 < t2.amountMinor →
      findBalance db1.accounts t2.userID = some b2 →
      ((t2.state = TxWin ∧ b2 + t2.amountMinor ≤ int64Max) ∨
        (t2.state = TxLose ∧ t2.amountMinor ≤ b2)) →
      processTransaction db1 t2 = (Except.error Err.duplicateTransaction, db1) ∧
      (processTransactionEv db1 t2).2.2.getLast? = some Event.rollback := by
  intro db db1 t1 t2 b2 h1 htid hu hnn hbd hpos hfb hcase
  have htx1 : db1.txns = (t1.transactionID, t1.userID) :: db.txns := process_ok_txns h1
  have hdup : hasTxid db1.txns t2.transactionID = true := by
    rw [htx1, hasTxid, htid]
    simp
  have hb2mem : (t2.userID, b2) ∈ db1.accounts := findBalance_mem hfb
  have hb2nn : 0 ≤ b2 := hnn _ hb2mem
  rcases hcase with ⟨hw, hmax⟩ | ⟨hl, hge⟩
  · have hall : allAddOk db1.accounts t2.userID t2.amountMinor = true := by
      apply allAddOk_of_rows
      intro r hr hid
      have hrb : r.2 = b2 := findBalance_val_unique hfb hu r hr hid
      rw [hrb, newBalOkB]
      simp only [Bool.and_eq_true, decide_eq_true_eq]
      omega
    have hbody := body_win_dup hfb hw hall hdup
    constructor
    · rw [processTransaction, processTransactionEv, withTx, hbody]
    · rw [processTransactionEv, withTx, hbody]
      simp [List.getLast?_concat]
  · have hsub : allSubOk db1.accounts t2.userID t2.amountMinor = true := by
      apply allSubOk_of_rows
      intro r hr hid hler
      have hrb : r.2 = b2 := findBalance_val_unique hfb hu r hr hid
      have hrmax : r.2 ≤ int64Max := hbd _ hr
      omega
    have hbody := body_lose_dup hfb hl hge hsub hdup
    constructor
    · rw [processTransaction, processTransactionEv, withTx, hbody]
    · rw [processTransactionEv, withTx, hbody]
      simp [List.getLast?_concat]

/-- Witness for C2 at a concrete pair of calls sharing a transactionId. -/
theorem c2_idempotent_txid_witness :
    processTransaction ⟨[(1, 100)], [("a", 1)]⟩ ⟨"a", 1, "game", "win", 50⟩ =
      (Except.error Err.duplicateTransaction, ⟨[(1, 100)], [("a", 1)]⟩) := by
  exact (c2_idempotent_txid ⟨[(1, 0)], []⟩ ⟨[(1, 100)], [("a", 1)]⟩
    ⟨"a", 1, "game", "win", 100⟩ ⟨"a", 1, "game", "win", 50⟩ 100
    (by rfl) (by rfl) (by unfold UniqueIds; decide) (by unfold NonNeg; decide)
    (by unfold BoundedBal int64Max; decide) (by decide) (by rfl)
    (Or.inl ⟨rfl, by unfold int64Max; decide⟩)).1

/-! ## Case and whitespace insensitivity of the enumeration parsers -/

theorem isGoSpace_false_of_range {c : Char} (h1 : 33 ≤ c.toNat) (h2 : c.toNat ≤ 127) :
    isGoSpace c = false := by
  simp only [isGoSpace, Bool.or_eq_false_iff, beq_eq_false_iff_ne, ne_eq,
    Bool.and_eq_false_iff, decide_eq_false_iff_not, not_le]
  omega

theorem toNat_goToLowerChar (c : Char) :
    (goToLowerChar c).toNat = if 65 ≤ c.toNat ∧ c.toNat ≤ 90 then c.toNat + 32 else c.toNat := by
  rw [goToLowerChar]
  split
  · rename_i h
    rw [Char.ofNat, dif_pos]
    · rfl
    · left
      omega
  · rfl

theorem isGoSpace_goToLowerChar (c : Char) : isGoSpace (goToLowerChar c) = isGoSpace c := by
  by_cases h : 65 ≤ c.toNat ∧ c.toNat ≤ 90
  · have hl : (goToLowerChar c).toNat = c.toNat + 32 := by
      rw [toNat_goToLowerChar, if_pos h]
    rw [isGoSpace_false_of_range (by omega) (by omega),
      isGoSpace_false_of_range (c := c) (by omega) (by omega)]
  · have hl : goToLowerChar c = c := by
      rw [goToLowerChar, if_neg h]
    rw [hl]

theorem dropWhile_spaces_nil {l : List Char} (h : ∀ c ∈ l, isGoSpace c = true) :
    l.dropWhile isGoSpace = [] :=
  List.dropWhile_eq_nil_iff.mpr h

theorem dropWhile_append_spaces {pre l : List Char} (h : ∀ c ∈ pre, isGoSpace c = true) :
    (pre ++ l).dropWhile isGoSpace = l.dropWhile isGoSpace := by
  induction pre with
  | nil => rfl
  | cons c cs ih =>
    rw [List.cons_append, List.dropWhile_cons, if_pos (by simp [h c (by simp)])]
    exact ih fun x hx => h x (List.mem_cons_of_mem _ hx)

theorem dropWhile_append_of_not_all {l post : List Char}
    (h : ∃ c ∈ l, isGoSpace c = false) :
    (l ++ post).dropWhile isGoSpace = l.dropWhile isGoSpace ++ post := by
  induction l with
  | nil => simp at h
  | cons c cs ih =>
    by_cases hc : isGoSpace c = true
    · have h2 : ∃ x ∈ cs, isGoSpace x = false := by
        rcases h with ⟨x, hx, hxf⟩
        rcases List.mem_cons.mp hx with rfl | hmem
        · rw [hc] at hxf
          cases hxf
        · exact ⟨x, hmem, hxf⟩
      rw [List.cons_append, List.dropWhile_cons, if_pos (by simp [hc]),
        List.dropWhile_cons, if_pos (by simp [hc])]
      exact ih h2
    · rw [List.cons_append, List.dropWhile_cons, if_neg (by simpa using hc),
        List.dropWhile_cons, if_neg (by simpa using hc), List.cons_append]

theorem goTrimSpace_pad {l pre post : List Char}
    (hpre : ∀ c ∈ pre, isGoSpace c = true) (hpost : ∀ c ∈ post, isGoSpace c = true) :
    goTrimSpace (pre ++ l ++ post) = goTrimSpace l := by
  rw [goTrimSpace, goTrimSpace, List.append_assoc, dropWhile_append_spaces hpre]
  by_cases hall : ∀ c ∈ l, isGoSpace c = true
  · have h1 : (l ++ post).dropWhile isGoSpace = [] := by
      apply dropWhile_spaces_nil
      intro c hc
      rcases List.mem_append.mp hc with h | h
      · exact hall c h
      · exact hpost c h
    rw [h1, dropWhile_spaces_nil hall]
  · push_neg at hall
    rcases hall with ⟨x, hx, hxn⟩
    have hxf : isGoSpace x = false := by simpa using hxn
    have hrev : ∀ c ∈ post.reverse, isGoSpace c = true := by
      intro c hc
      exact hpost c (List.mem_reverse.mp hc)
    rw [dropWhile_append_of_not_all ⟨x, hx, hxf⟩, List.reverse_append,
      dropWhile_append_spaces hrev]

theorem goTrimSpace_map_lower (l : List Char) :
    goTrimSpace (l.map goToLowerChar) = (goTrimSpace l).map goToLowerChar := by
  have hp : (fun c => isGoSpace (goToLowerChar c)) = isGoSpace := by
    funext c
    exact isGoSpace_goToLowerChar c
  rw [goTrimSpace, goTrimSpace, List.dropWhile_map, ← List.map_reverse,
    List.dropWhile_map, ← List.map_reverse]
  simp only [Function.comp_def, hp]

/-- C9: the state field and the Source-Type header are parsed after
TrimSpace and ToLower, so both parsers are invariant under leading and
trailing whitespace and under letter case; in particular WIN, a
whitespace-padded lose, and Game are accepted exactly like their
lowercase forms. -/
theorem c9_case_whitespace_insensitive :
    (∀ (u pre post : List Char), (∀ c ∈ pre, isGoSpace c = true) →
      (∀ c ∈ post, isGoSpace c = true) →
      parseTxStateL (pre ++ u ++ post) = parseTxStateL u) ∧
    (∀ (u v : List Char), u.map goToLowerChar = v.map goToLowerChar →
      parseTxStateL u = parseTxStateL v) ∧
    (∀ (u pre post : List Char), (∀ c ∈ pre, isGoSpace c = true) →
      (∀ c ∈ post, isGoSpace c = true) →
      parseSourceTypeL (pre ++ u ++ post) = parseSourceTypeL u) ∧
    (∀ (u v : List Char), u.map goToLowerChar = v.map goToLowerChar →
      parseSourceTypeL u = parseSourceTypeL v) ∧
    (parseTxState "WIN" = Except.ok TxWin ∧ parseTxState "WIN" = parseTxState "win") ∧
    (parseTxState " lose " = Except.ok TxLose ∧
      parseTxState " lose " = parseTxState "lose") ∧
    (parseSourceType "Game" = Except.ok SourceGame ∧
      parseSourceType "Game" = parseSourceType "game") := by
  have key : ∀ u v : List Char, u.map goToLowerChar = v.map goToLowerChar →
      (goTrimSpace u).map goToLowerChar = (goTrimSpace v).map goToLowerChar := by
    intro u v h
    rw [← goTrimSpace_map_lower, h, goTrimSpace_map_lower]
  refine ⟨?_, ?_, ?_, ?_, ⟨by rfl, by rfl⟩, ⟨by rfl, by rfl⟩, ⟨by rfl, by rfl⟩⟩
  · intro u pre post hpre hpost
    rw [parseTxStateL, parseTxStateL, goTrimSpace_pad hpre hpost]
  · intro u v h
    rw [parseTxStateL, parseTxStateL, key u v h]
  · intro u pre post hpre hpost
    rw [parseSourceTypeL, parseSourceTypeL, goTrimSpace_pad hpre hpost]
  · intro u v h
    rw [parseSourceTypeL, parseSourceTypeL, key u v h]

/-- Witness for C9 at concrete inputs. -/
theorem c9_case_whitespace_insensitive_witness :
    parseTxStateL ([' '] ++ "win".data ++ [' ', '\t']) = parseTxStateL "win".data ∧
    parseTxStateL "WIN".data = parseTxStateL "wIn".data := by
  constructor
  · exact c9_case_whitespace_insensitive.1 "win".data [' '] [' ', '\t']
      (by decide) (by decide)
  · exact c9_case_whitespace_insensitive.2.1 "WIN".data "wIn".data (by rfl)

/-! ## Lemmas on the amount decoder -/

theorem char_ne_of_toNat_ne {c d : Char} (h : c.toNat ≠ d.toNat) : c ≠ d :=
  fun hc => h (congrArg Char.toNat hc)

theorem isDigit_toNat {c : Char} (h : c.isDigit = true) :
    48 ≤ c.toNat ∧ c.toNat ≤ 57 := by
  rw [Char.isDigit] at h
  simp only [Bool.and_eq_true, decide_eq_true_eq] at h
  exact ⟨h.1, h.2⟩

theorem digit_ne_plus {c : Char} (h : c.isDigit = true) : c ≠ '+' := by
  have := isDigit_toNat h
  have h43 : ('+').toNat = 43 := rfl
  exact char_ne_of_toNat_ne (by omega)

theorem digit_ne_minus {c : Char} (h : c.isDigit = true) : c ≠ '-' := by
  have := isDigit_toNat h
  have h45 : ('-').toNat = 45 := rfl
  exact char_ne_of_toNat_ne (by omega)

theorem digit_ne_dot {c : Char} (h : c.isDigit = true) : c ≠ '.' := by
  have := isDigit_toNat h
  have h46 : ('.').toNat = 46 := rfl
  exact char_ne_of_toNat_ne (by omega)

theorem digit_not_space {c : Char} (h : c.isDigit = true) : isGoSpace c = false := by
  have := isDigit_toNat h
  exact isGoSpace_false_of_range (by omega) (by omega)

theorem dot_not_mem {ds : List Char} (h : ∀ c ∈ ds, c.isDigit = true) : '.' ∉ ds := by
  intro hmem
  have := isDigit_toNat (h _ hmem)
  have h46 : ('.').toNat = 46 := rfl
  omega

theorem dropWhile_no_space {l : List Char} (h : ∀ c ∈ l, isGoSpace c = false) :
    l.dropWhile isGoSpace = l := by
  cases l with
  | nil => rfl
  | cons c cs =>
    rw [List.dropWhile_cons, if_neg]
    simp [h c (List.mem_cons_self _ _)]

theorem goTrimSpace_no_space {l : List Char} (h : ∀ c ∈ l, isGoSpace c = false) :
    goTrimSpace l = l := by
  rw [goTrimSpace, dropWhile_no_space h, dropWhile_no_space, List.reverse_reverse]
  intro c hc
  exact h c (List.mem_reverse.mp hc)

theorem goSplit_ne_nil (l : List Char) (sep : Char) : goSplit l sep ≠ [] := by
  cases l with
  | nil => simp [goSplit]
  | cons c cs =>
    rw [goSplit]
    split
    · simp
    · split <;> simp

theorem goSplit_no_sep {l : List Char} {sep : Char} (h : sep ∉ l) :
    goSplit l sep = [l] := by
  induction l with
  | nil => rfl
  | cons c cs ih =>
    rw [goSplit, if_neg (fun hc => h (by rw [← hc]; exact List.mem_cons_self _ _)),
      ih (fun hc => h (List.mem_cons_of_mem _ hc))]

theorem goSplit_append_sep {a b : List Char} {sep : Char} (h : sep ∉ a) :
    goSplit (a ++ sep :: b) sep = a :: goSplit b sep := by
  induction a with
  | nil => simp [goSplit]
  | cons c a' ih =>
    rw [List.cons_append, goSplit,
      if_neg (fun hc => h (by rw [← hc]; exact List.mem_cons_self _ _)),
      ih (fun hc => h (List.mem_cons_of_mem _ hc))]

theorem goSplit_length (l : List Char) (sep : Char) :
    (goSplit l sep).length = l.count sep + 1 := by
  induction l with
  | nil => simp [goSplit]
  | cons c cs ih =>
    rw [goSplit]
    split
    · rename_i hc
      rw [List.length_cons, ih, hc]
      simp [List.count_cons]
    · rename_i hc
      split
      · rename_i heq
        exact absurd heq (goSplit_ne_nil cs sep)
      · rename_i h t heq
        have hlen : (goSplit cs sep).length = t.length + 1 := by
          rw [heq, List.length_cons]
        rw [ih] at hlen
        rw [List.count_cons_of_ne (Ne.symm hc)]
        simp only [List.length_cons]
        omega

theorem goSplit_one_sep {l : List Char} {sep : Char} (h : l.count sep = 1) :
    goSplit l sep =
      [l.takeWhile (fun c => !(c == sep)), (l.dropWhile (fun c => !(c == sep))).tail] := by
  induction l with
  | nil => simp at h
  | cons c cs ih =>
    by_cases hc : c = sep
    · have hcs : cs.count sep = 0 := by
        rw [List.count_cons, if_pos (by simp [hc])] at h
        omega
      have hnm : sep ∉ cs := by
        intro hm
        rw [List.count_eq_zero] at hcs
        exact hcs hm
      subst hc
      rw [goSplit, if_pos rfl, goSplit_no_sep hnm, List.takeWhile_cons,
        List.dropWhile_cons]
      simp
    · have hcs : cs.count sep = 1 := by
        rw [List.count_cons, if_neg (by simp [hc])] at h
        omega
      rw [goSplit, if_neg hc, ih hcs, List.takeWhile_cons, List.dropWhile_cons]
      simp [hc]

theorem digitsNatAux_digits {l : List Char} (h : ∀ c ∈ l, c.isDigit = true) (acc : Nat) :
    digitsNatAux acc l = some (l.foldl (fun a c => a * 10 + digitVal c) acc) := by
  induction l generalizing acc with
  | nil => rfl
  | cons c cs ih =>
    rw [digitsNatAux, if_pos (h c (List.mem_cons_self _ _)), List.foldl_cons]
    exact ih (fun x hx => h x (List.mem_cons_of_mem _ hx)) _

theorem parseIntBase10_digits {l : List Char} (hne : l ≠ [])
    (h : ∀ c ∈ l, c.isDigit = true) (hle : decDigits l ≤ 2 ^ 63 - 1) :
    parseIntBase10 l = some ((decDigits l : Int)) := by
  cases l with
  | nil => exact absurd rfl hne
  | cons c cs =>
    have hd := h c (List.mem_cons_self _ _)
    have hnm : ¬ (c = '-' ∨ c = '+') := by
      rintro (hm | hp)
      · exact digit_ne_minus hd hm
      · exact digit_ne_plus hd hp
    simp only [parseIntBase10, hnm, if_false, digitsNatAux_digits h 0]
    rw [if_neg (digit_ne_minus hd), if_pos]
    · rfl
    · rw [int64Max]
      have h63 : ((2 : Int) ^ 63 - 1) = ((2 ^ 63 - 1 : Nat) : Int) := by norm_num
      rw [h63]
      exact_mod_cast hle

theorem wrap64_id {i : Int} (h1 : -(2 ^ 63) ≤ i) (h2 : i ≤ 2 ^ 63 - 1) :
    wrap64 i = i := by
  rw [wrap64, Int.emod_eq_of_lt (by omega) (by omega)]
  omega

theorem frac_digits {fs : List Char} (hfs : ∀ c ∈ fs, c.isDigit = true) :
    ∀ c ∈ fs ++ List.replicate (2 - fs.length) '0', c.isDigit = true := by
  intro c hc
  rcases List.mem_append.mp hc with h | h
  · exact hfs c h
  · rw [List.eq_of_mem_replicate h]
    rfl

theorem frac_length {fs : List Char} (hlen : fs.length ≤ 2) :
    (fs ++ List.replicate (2 - fs.length) '0').length = 2 := by
  rw [List.length_append, List.length_replicate]
  omega

theorem decDigits_le_99 {l : List Char} (h : ∀ c ∈ l, c.isDigit = true)
    (hlen : l.length = 2) : decDigits l ≤ 99 := by
  rcases List.length_eq_two.mp hlen with ⟨a, b, rfl⟩
  have ha := isDigit_toNat (h a (by simp))
  have hb := isDigit_toNat (h b (by simp))
  show (0 * 10 + digitVal a) * 10 + digitVal b ≤ 99
  rw [digitVal, digitVal]
  omega

theorem fracValPadded_eq {fs : List Char} :
    decDigits (fs ++ List.replicate (2 - fs.length) '0') = fracValPadded fs := rfl

theorem finishAmount_false_eval {ds frac : List Char} (hdsne : ds ≠ [])
    (hds : ∀ c ∈ ds, c.isDigit = true) (hfr : ∀ c ∈ frac, c.isDigit = true)
    (hfrlen : frac.length = 2)
    (hlow : 0 < decDigits ds * 100 + decDigits frac)
    (hhigh : decDigits ds * 100 + decDigits frac ≤ 2 ^ 63 - 1) :
    finishAmount false ds frac =
      ParseOutcome.ok ((decDigits ds * 100 + decDigits frac : Nat) : Int) := by
  have hfrne : frac ≠ [] := by
    intro h
    rw [h] at hfrlen
    simp at hfrlen
  have hip : parseIntBase10 ds = some ((decDigits ds : Int)) :=
    parseIntBase10_digits hdsne hds (by omega)
  have hfp : parseIntBase10 frac = some ((decDigits frac : Int)) :=
    parseIntBase10_digits hfrne hfr (by have := decDigits_le_99 hfr hfrlen; omega)
  have hcast : ((decDigits ds : Int)) * 100 + ((decDigits frac : Int)) =
      ((decDigits ds * 100 + decDigits frac : Nat) : Int) := by
    push_cast
    ring
  have hbound : ((decDigits ds * 100 + decDigits frac : Nat) : Int) ≤ 2 ^ 63 - 1 := by
    have h63 : ((2 : Int) ^ 63 - 1) = ((2 ^ 63 - 1 : Nat) : Int) := by norm_num
    rw [h63]
    exact_mod_cast hhigh
  have hpos : (0 : Int) < ((decDigits ds * 100 + decDigits frac : Nat) : Int) := by
    exact_mod_cast hlow
  have hnn : (0 : Int) ≤ ((decDigits ds * 100 + decDigits frac : Nat) : Int) := by omega
  have h1 : wrap64 ((decDigits ds * 100 + decDigits frac : Nat) : Int) =
      ((decDigits ds * 100 + decDigits frac : Nat) : Int) :=
    wrap64_id (by omega) (by omega)
  simp only [finishAmount, hip, hfp, hcast, h1]
  rw [if_neg (show ¬ (false = true) by simp)]
  rw [if_neg (show ¬ ((decDigits ds * 100 + decDigits frac : Nat) : Int) ≤ 0 by omega)]

theorem finishAmount_true_eval {ds frac : List Char} (hdsne : ds ≠ [])
    (hds : ∀ c ∈ ds, c.isDigit = true) (hfr : ∀ c ∈ frac, c.isDigit = true)
    (hfrlen : frac.length = 2)
    (hhigh : decDigits ds * 100 + decDigits frac ≤ 2 ^ 63 - 1) :
    finishAmount true ds frac = ParseOutcome.err "amount must be > 0" := by
  have hfrne : frac ≠ [] := by
    intro h
    rw [h] at hfrlen
    simp at hfrlen
  have hip : parseIntBase10 ds = some ((decDigits ds : Int)) :=
    parseIntBase10_digits hdsne hds (by omega)
  have hfp : parseIntBase10 frac = some ((decDigits frac : Int)) :=
    parseIntBase10_digits hfrne hfr (by have := decDigits_le_99 hfr hfrlen; omega)
  have hcast : ((decDigits ds : Int)) * 100 + ((decDigits frac : Int)) =
      ((decDigits ds * 100 + decDigits frac : Nat) : Int) := by
    push_cast
    ring
  have hbound : ((decDigits ds * 100 + decDigits frac : Nat) : Int) ≤ 2 ^ 63 - 1 := by
    have h63 : ((2 : Int) ^ 63 - 1) = ((2 ^ 63 - 1 : Nat) : Int) := by norm_num
    rw [h63]
    exact_mod_cast hhigh
  have hnn : (0 : Int) ≤ ((decDigits ds * 100 + decDigits frac : Nat) : Int) := by
    exact_mod_cast Nat.zero_le _
  have h1 : wrap64 ((decDigits ds * 100 + decDigits frac : Nat) : Int) =
      ((decDigits ds * 100 + decDigits frac : Nat) : Int) :=
    wrap64_id (by omega) (by omega)
  simp only [finishAmount, hip, hfp, hcast, h1]
  rw [if_pos trivial]
  have h2 : wrap64 (-((decDigits ds * 100 + decDigits frac : Nat) : Int)) =
      -((decDigits ds * 100 + decDigits frac : Nat) : Int) :=
    wrap64_id (by omega) (by omega)
  rw [h2]
  rw [if_pos (show -((decDigits ds * 100 + decDigits frac : Nat) : Int) ≤ 0 by omega)]

theorem no_space_digits_dot {ds fs : List Char} (hds : ∀ c ∈ ds, c.isDigit = true)
    (hfs : ∀ c ∈ fs, c.isDigit = true) :
    ∀ c ∈ ds ++ '.' :: fs, isGoSpace c = false := by
  intro c hc
  rcases List.mem_append.mp hc with h | h
  · exact digit_not_space (hds c h)
  · rcases List.mem_cons.mp h with rfl | h2
    · rfl
    · exact digit_not_space (hfs c h2)

theorem parseSigned_dotted {nb : Bool} {ds fs : List Char}
    (hd1 : '.' ∉ ds) (hd2 : '.' ∉ fs) (hlen : fs.length ≤ 2) :
    parseSigned nb (ds ++ '.' :: fs) =
      finishAmount nb ds (fs ++ List.replicate (2 - fs.length) '0') := by
  rw [parseSigned, goSplit_append_sep hd1, goSplit_no_sep hd2]
  show (if 2 < fs.length then ParseOutcome.err "amount supports up to 2 decimals"
    else finishAmount nb ds (fs ++ List.replicate (2 - fs.length) '0')) = _
  rw [if_neg (show ¬ 2 < fs.length by omega)]

theorem parseSigned_dotless {nb : Bool} {ds : List Char} (hd1 : '.' ∉ ds) :
    parseSigned nb ds = finishAmount nb ds ['0', '0'] := by
  rw [parseSigned, goSplit_no_sep hd1]

theorem parseSigned_two_dots {nb : Bool} {t2 : List Char} (h : 2 ≤ t2.count '.') :
    parseSigned nb t2 = ParseOutcome.err "invalid amount" := by
  rw [parseSigned]
  have h3 : 3 ≤ (goSplit t2 '.').length := by
    rw [goSplit_length]
    omega
  generalize hq : goSplit t2 '.' = parts
  rw [hq] at h3
  rcases parts with _ | ⟨a, _ | ⟨b, _ | ⟨c, t⟩⟩⟩
  · simp at h3
  · simp at h3
  · simp at h3
  · rfl

theorem parseSigned_long_frac {nb : Bool} {t2 : List Char} (h1 : t2.count '.' = 1)
    (h2 : 2 < ((t2.dropWhile (fun c => !(c == '.'))).tail).length) :
    parseSigned nb t2 = ParseOutcome.err "amount supports up to 2 decimals" := by
  rw [parseSigned, goSplit_one_sep h1]
  show (if 2 < ((t2.dropWhile (fun c => !(c == '.'))).tail).length then
      ParseOutcome.err "amount supports up to 2 decimals"
    else finishAmount nb (t2.takeWhile (fun c => !(c == '.')))
      ((t2.dropWhile (fun c => !(c == '.'))).tail ++
        List.replicate (2 - ((t2.dropWhile (fun c => !(c == '.'))).tail).length) '0')) = _
  rw [if_pos h2]

theorem parseSigned_pos {nb : Bool} {t2 : List Char} {v : Int}
    (h : parseSigned nb t2 = ParseOutcome.ok v) : 0 < v := by
  have hfin : ∀ (ng : Bool) (a b : List Char),
      finishAmount ng a b = ParseOutcome.ok v → 0 < v := by
    intro ng a b hf
    simp only [finishAmount] at hf
    split at hf
    · simp at hf
    · split at hf
      · simp at hf
      · split at hf <;> split at hf
        · simp at hf
        · rename_i htot
          injection hf with hv
          omega
        · simp at hf
        · rename_i htot
          injection hf with hv
          omega
  rw [parseSigned] at h
  rcases hq : goSplit t2 '.' with _ | ⟨a, _ | ⟨b, _ | ⟨c, t⟩⟩⟩ <;> rw [hq] at h
  · have h2 : ParseOutcome.err "invalid amount" = ParseOutcome.ok v := h
    simp at h2
  · exact hfin _ _ _ h
  · have h2 : (if 2 < b.length then ParseOutcome.err "amount supports up to 2 decimals"
        else finishAmount nb a (b ++ List.replicate (2 - b.length) '0')) =
        ParseOutcome.ok v := h
    split at h2
    · simp at h2
    · exact hfin _ _ _ h2
  · have h2 : ParseOutcome.err "invalid amount" = ParseOutcome.ok v := h
    simp at h2

theorem parseTrimmed_nil : parseTrimmed [] = ParseOutcome.err "amount required" := rfl

theorem parseTrimmed_minus (rest : List Char) :
    parseTrimmed ('-' :: rest) = parseSigned true rest := rfl

theorem parseTrimmed_lone_plus : parseTrimmed ['+'] = ParseOutcome.indexOutOfRange := rfl

theorem parseTrimmed_plus_minus (rest : List Char) :
    parseTrimmed ('+' :: '-' :: rest) = parseSigned true rest := rfl

theorem parseTrimmed_plain {c0 : Char} {rest : List Char} (h1 : ¬ c0 = '+')
    (h2 : ¬ c0 = '-') : parseTrimmed (c0 :: rest) = parseSigned false (c0 :: rest) := by
  rw [parseTrimmed]
  rw [if_neg h1]
  show parseSigned (decide (c0 = '-')) (if c0 = '-' then rest else c0 :: rest) = _
  rw [if_neg h2, decide_eq_false h2]

theorem parseTrimmed_plus_plain {c1 : Char} {rest : List Char} (h2 : ¬ c1 = '-') :
    parseTrimmed ('+' :: c1 :: rest) = parseSigned false (c1 :: rest) := by
  rw [parseTrimmed]
  rw [if_pos rfl]
  show parseSigned (decide (c1 = '-')) (if c1 = '-' then rest else c1 :: rest) = _
  rw [if_neg h2, decide_eq_false h2]

theorem parseL_dotted_step {ds fs : List Char} (hne : ds ≠ [])
    (hds : ∀ c ∈ ds, c.isDigit = true) (hfs : ∀ c ∈ fs, c.isDigit = true)
    (hlen : fs.length ≤ 2) :
    parseAmountCentsL (ds ++ '.' :: fs) =
      finishAmount false ds (fs ++ List.replicate (2 - fs.length) '0') := by
  cases ds with
  | nil => exact absurd rfl hne
  | cons d ds2 =>
    have hd : d.isDigit = true := hds d (List.mem_cons_self _ _)
    rw [parseAmountCentsL, goTrimSpace_no_space (no_space_digits_dot hds hfs),
      List.cons_append, parseTrimmed_plain (digit_ne_plus hd) (digit_ne_minus hd),
      ← List.cons_append, parseSigned_dotted (dot_not_mem hds) (dot_not_mem hfs) hlen]

theorem parseL_plus_dotted_step {ds fs : List Char} (hne : ds ≠ [])
    (hds : ∀ c ∈ ds, c.isDigit = true) (hfs : ∀ c ∈ fs, c.isDigit = true)
    (hlen : fs.length ≤ 2) :
    parseAmountCentsL ('+' :: (ds ++ '.' :: fs)) =
      finishAmount false ds (fs ++ List.replicate (2 - fs.length) '0') := by
  cases ds with
  | nil => exact absurd rfl hne
  | cons d ds2 =>
    have hd : d.isDigit = true := hds d (List.mem_cons_self _ _)
    have hall : ∀ c ∈ '+' :: ((d :: ds2) ++ '.' :: fs), isGoSpace c = false := by
      intro c hc
      rcases List.mem_cons.mp hc with rfl | h2
      · rfl
      · exact no_space_digits_dot hds hfs c h2
    rw [parseAmountCentsL, goTrimSpace_no_space hall, List.cons_append,
      parseTrimmed_plus_plain (digit_ne_minus hd),
      ← List.cons_append, parseSigned_dotted (dot_not_mem hds) (dot_not_mem hfs) hlen]

theorem parseL_minus_dotted_step {ds fs : List Char}
    (hds : ∀ c ∈ ds, c.isDigit = true) (hfs : ∀ c ∈ fs, c.isDigit = true)
    (hlen : fs.length ≤ 2) :
    parseAmountCentsL ('-' :: (ds ++ '.' :: fs)) =
      finishAmount true ds (fs ++ List.replicate (2 - fs.length) '0') := by
  have hall : ∀ c ∈ '-' :: (ds ++ '.' :: fs), isGoSpace c = false := by
    intro c hc
    rcases List.mem_cons.mp hc with rfl | h2
    · rfl
    · exact no_space_digits_dot hds hfs c h2
  rw [parseAmountCentsL, goTrimSpace_no_space hall, parseTrimmed_minus,
    parseSigned_dotted (dot_not_mem hds) (dot_not_mem hfs) hlen]

theorem parseL_dotless_step {ds : List Char} (hne : ds ≠ [])
    (hds : ∀ c ∈ ds, c.isDigit = true) :
    parseAmountCentsL ds = finishAmount false ds ['0', '0'] := by
  cases ds with
  | nil => exact absurd rfl hne
  | cons d ds2 =>
    have hd : d.isDigit = true := hds d (List.mem_cons_self _ _)
    rw [parseAmountCentsL,
      goTrimSpace_no_space (fun c hc => digit_not_space (hds c hc)),
      parseTrimmed_plain (digit_ne_plus hd) (digit_ne_minus hd),
      parseSigned_dotless (dot_not_mem hds)]

theorem parseL_minus_dotless_step {ds : List Char}
    (hds : ∀ c ∈ ds, c.isDigit = true) :
    parseAmountCentsL ('-' :: ds) = finishAmount true ds ['0', '0'] := by
  have hall : ∀ c ∈ '-' :: ds, isGoSpace c = false := by
    intro c hc
    rcases List.mem_cons.mp hc with rfl | h2
    · rfl
    · exact digit_not_space (hds c h2)
  rw [parseAmountCentsL, goTrimSpace_no_space hall, parseTrimmed_minus,
    parseSigned_dotless (dot_not_mem hds)]

theorem parseL_plus_dotless_step {ds : List Char} (hne : ds ≠ [])
    (hds : ∀ c ∈ ds, c.isDigit = true) :
    parseAmountCentsL ('+' :: ds) = finishAmount false ds ['0', '0'] := by
  cases ds with
  | nil => exact absurd rfl hne
  | cons d ds2 =>
    have hd : d.isDigit = true := hds d (List.mem_cons_self _ _)
    have hall : ∀ c ∈ '+' :: d :: ds2, isGoSpace c = false := by
      intro c hc
      rcases List.mem_cons.mp hc with rfl | h2
      · rfl
      · exact digit_not_space (hds c h2)
    rw [parseAmountCentsL, goTrimSpace_no_space hall,
      parseTrimmed_plus_plain (digit_ne_minus hd),
      parseSigned_dotless (dot_not_mem hds)]

theorem afterDot_cons {c : Char} {rest : List Char} (h : ¬ c = '.') :
    ((c :: rest).dropWhile (fun x => !(x == '.'))).tail =
      (rest.dropWhile (fun x => !(x == '.'))).tail := by
  rw [List.dropWhile_cons, if_pos (by simp [h])]

theorem parseTrimmed_pos {t0 : List Char} {v : Int}
    (h : parseTrimmed t0 = ParseOutcome.ok v) : 0 < v := by
  cases t0 with
  | nil =>
    rw [parseTrimmed_nil] at h
    simp at h
  | cons c0 rest0 =>
    by_cases hp : c0 = '+'
    · subst hp
      cases rest0 with
      | nil =>
        rw [parseTrimmed_lone_plus] at h
        simp at h
      | cons c1 rest1 =>
        by_cases hm : c1 = '-'
        · subst hm
          rw [parseTrimmed_plus_minus] at h
          exact parseSigned_pos h
        · rw [parseTrimmed_plus_plain hm] at h
          exact parseSigned_pos h
    · by_cases hm : c0 = '-'
      · subst hm
        rw [parseTrimmed_minus] at h
        exact parseSigned_pos h
      · rw [parseTrimmed_plain hp hm] at h
        exact parseSigned_pos h

theorem parseTrimmed_two_dots {t0 : List Char} (h : 2 ≤ t0.count '.') :
    parseTrimmed t0 = ParseOutcome.err "invalid amount" := by
  cases t0 with
  | nil => simp at h
  | cons c0 rest0 =>
    by_cases hp : c0 = '+'
    · subst hp
      have hr : 2 ≤ rest0.count '.' := by
        rwa [List.count_cons_of_ne (show ('.' : Char) ≠ '+' by decide)] at h
      cases rest0 with
      | nil => simp at hr
      | cons c1 rest1 =>
        by_cases hm : c1 = '-'
        · subst hm
          rw [parseTrimmed_plus_minus]
          apply parseSigned_two_dots
          rwa [List.count_cons_of_ne (show ('.' : Char) ≠ '-' by decide)] at hr
        · rw [parseTrimmed_plus_plain hm]
          exact parseSigned_two_dots hr
    · by_cases hm : c0 = '-'
      · subst hm
        rw [parseTrimmed_minus]
        apply parseSigned_two_dots
        rwa [List.count_cons_of_ne (show ('.' : Char) ≠ '-' by decide)] at h
      · rw [parseTrimmed_plain hp hm]
        exact parseSigned_two_dots h

theorem parseTrimmed_long_frac {t0 : List Char} (h1 : t0.count '.' = 1)
    (h2 : 2 < ((t0.dropWhile (fun c => !(c == '.'))).tail).length) :
    parseTrimmed t0 = ParseOutcome.err "amount supports up to 2 decimals" := by
  cases t0 with
  | nil => simp at h1
  | cons c0 rest0 =>
    by_cases hp : c0 = '+'
    · subst hp
      have hr1 : rest0.count '.' = 1 := by
        rwa [List.count_cons_of_ne (show ('.' : Char) ≠ '+' by decide)] at h1
      have hr2 : 2 < ((rest0.dropWhile (fun c => !(c == '.'))).tail).length := by
        rwa [afterDot_cons (show ¬ ('+' : Char) = '.' by decide)] at h2
      cases rest0 with
      | nil => simp at hr1
      | cons c1 rest1 =>
        by_cases hm : c1 = '-'
        · subst hm
          rw [parseTrimmed_plus_minus]
          apply parseSigned_long_frac
          · rwa [List.count_cons_of_ne (show ('.' : Char) ≠ '-' by decide)] at hr1
          · rwa [afterDot_cons (show ¬ ('-' : Char) = '.' by decide)] at hr2
        · rw [parseTrimmed_plus_plain hm]
          exact parseSigned_long_frac hr1 hr2
    · by_cases hm : c0 = '-'
      · subst hm
        rw [parseTrimmed_minus]
        apply parseSigned_long_frac
        · rwa [List.count_cons_of_ne (show ('.' : Char) ≠ '-' by decide)] at h1
        · rwa [afterDot_cons (show ¬ ('-' : Char) = '.' by decide)] at h2
      · rw [parseTrimmed_plain hp hm]
        exact parseSigned_long_frac h1 h2
/-- C6 (amended): the decoder accepts every trimmed string made of an
optional single leading sign, a nonempty digit run, and an optional dot
followed by zero, one or two digits (zero digits are padded to .00, one
digit to tenths), provided the decoded cent value is positive and fits
in int64; a minus-signed string of this plain shape, whose magnitude
fits in int64, is rejected as nonpositive; every accepted value is
positive; more than one dot, or more than two characters after the only
dot, is rejected; the listed concrete inputs are rejected; and beyond
the plain grammar the underlying integer parser also accepts signs
inside the integer and fractional fields, so inputs such as a
double-signed integer or a signed fraction are accepted as well. -/
theorem c6_decode_grammar :
    (∀ ds fs : List Char, ds ≠ [] → (∀ c ∈ ds, c.isDigit = true) →
      (∀ c ∈ fs, c.isDigit = true) → fs.length ≤ 2 →
      0 < decDigits ds * 100 + fracValPadded fs →
      decDigits ds * 100 + fracValPadded fs ≤ 2 ^ 63 - 1 →
      parseAmountCentsL (ds ++ '.' :: fs) =
        ParseOutcome.ok ((decDigits ds * 100 + fracValPadded fs : Nat) : Int) ∧
      parseAmountCentsL ('+' :: (ds ++ '.' :: fs)) =
        ParseOutcome.ok ((decDigits ds * 100 + fracValPadded fs : Nat) : Int) ∧
      parseAmountCentsL ('-' :: (ds ++ '.' :: fs)) =
        ParseOutcome.err "amount must be > 0") ∧
    (∀ ds : List Char, ds ≠ [] → (∀ c ∈ ds, c.isDigit = true) →
      0 < decDigits ds → decDigits ds * 100 ≤ 2 ^ 63 - 1 →
      parseAmountCentsL ds = ParseOutcome.ok ((decDigits ds * 100 : Nat) : Int) ∧
      parseAmountCentsL ('+' :: ds) =
        ParseOutcome.ok ((decDigits ds * 100 : Nat) : Int) ∧
      parseAmountCentsL ('-' :: ds) = ParseOutcome.err "amount must be > 0") ∧
    (∀ (s : String) (v : Int), parseAmountCents s = ParseOutcome.ok v → 0 < v) ∧
    (∀ s : String, 2 ≤ (goTrimSpace s.data).count '.' →
      parseAmountCents s = ParseOutcome.err "invalid amount") ∧
    (∀ s : String, (goTrimSpace s.data).count '.' = 1 →
      2 < (((goTrimSpace s.data).dropWhile (fun c => !(c == '.'))).tail).length →
      parseAmountCents s = ParseOutcome.err "amount supports up to 2 decimals") ∧
    (parseAmountCents "" = ParseOutcome.err "amount required" ∧
      parseAmountCents "abc" = ParseOutcome.err "invalid amount integer" ∧
      parseAmountCents "0" = ParseOutcome.err "amount must be > 0" ∧
      parseAmountCents "-5.00" = ParseOutcome.err "amount must be > 0" ∧
      parseAmountCents "1.234" = ParseOutcome.err "amount supports up to 2 decimals" ∧
      parseAmountCents "1.2.3" = ParseOutcome.err "invalid amount") ∧
    (parseAmountCents "1." = ParseOutcome.ok 100 ∧
      parseAmountCents "--5" = ParseOutcome.ok 500 ∧
      parseAmountCents "1.-5" = ParseOutcome.ok 95) := by
  refine ⟨?_, ?_, ?_, ?_, ?_, ⟨rfl, rfl, rfl, rfl, rfl, rfl⟩, ⟨rfl, rfl, rfl⟩⟩
  · intro ds fs hne hds hfs hlen hlow hhigh
    refine ⟨?_, ?_, ?_⟩
    · rw [parseL_dotted_step hne hds hfs hlen,
        finishAmount_false_eval hne hds (frac_digits hfs) (frac_length hlen) hlow hhigh]
      rfl
    · rw [parseL_plus_dotted_step hne hds hfs hlen,
        finishAmount_false_eval hne hds (frac_digits hfs) (frac_length hlen) hlow hhigh]
      rfl
    · rw [parseL_minus_dotted_step hds hfs hlen,
        finishAmount_true_eval hne hds (frac_digits hfs) (frac_length hlen) hhigh]
  · intro ds hne hds hlow hhigh
    have h00 : decDigits ['0', '0'] = 0 := rfl
    refine ⟨?_, ?_, ?_⟩
    · rw [parseL_dotless_step hne hds,
        finishAmount_false_eval hne hds (by decide) (by decide)
          (by rw [h00]; omega) (by rw [h00]; omega)]
      rfl
    · rw [parseL_plus_dotless_step hne hds,
        finishAmount_false_eval hne hds (by decide) (by decide)
          (by rw [h00]; omega) (by rw [h00]; omega)]
      rfl
    · rw [parseL_minus_dotless_step hds,
        finishAmount_true_eval hne hds (by decide) (by decide) (by rw [h00]; omega)]
  · intro s v h
    rw [parseAmountCents, parseAmountCentsL] at h
    exact parseTrimmed_pos h
  · intro s h
    rw [parseAmountCents, parseAmountCentsL]
    exact parseTrimmed_two_dots h
  · intro s h1 h2
    rw [parseAmountCents, parseAmountCentsL]
    exact parseTrimmed_long_frac h1 h2

/-- Counterexample to C6 as stated: a dot followed by zero digits is
accepted (as if .00), not rejected. -/
theorem c6_decode_grammar_counterexample :
    parseAmountCents "1." = ParseOutcome.ok 100 := rfl

/-- Witness for C6 at concrete inputs. -/
theorem c6_decode_grammar_witness :
    parseAmountCentsL ['7', '.', '5'] = ParseOutcome.ok 750 ∧
    parseAmountCentsL ['4', '2'] = ParseOutcome.ok 4200 := by
  constructor
  · exact (c6_decode_grammar.1 ['7'] ['5'] (by decide) (by decide) (by decide)
      (by decide) (by decide) (by decide)).1
  · exact (c6_decode_grammar.2.1 ['4', '2'] (by decide) (by decide)
      (by decide) (by decide)).1
/-- C5: the balance rendering is not exact.  It computes the IEEE-754
double float64(bal) divided by 100.0 and formats it with two fixed
decimals, which rounds: at 9007199254740993 cents (one above 2 to the
53) the rendered string decodes back to 9007199254740992, and at 0
cents the rendered string 0.00 is rejected by the decoder, so both the
no-rounding exactness and the decode-encode round trip of the claim
fail on the code. -/
theorem c5_codec_float_rounding :
    encodeBalance 9007199254740993 = "90071992547409.92" ∧
    parseAmountCents "90071992547409.92" = ParseOutcome.ok 9007199254740992 ∧
    ((9007199254740992 : Int) ≠ 9007199254740993) ∧
    encodeBalance 0 = "0.00" ∧
    parseAmountCents "0.00" = ParseOutcome.err "amount must be > 0" := by
  refine ⟨by decide, rfl, by decide, rfl, rfl⟩

/-- C8: the decoder is not total.  On a lone plus sign it strips the
plus and then reads the first byte of the now-empty string, an
out-of-range index (a run-time panic in Go); a lone minus, by
contrast, is an ordinary parse error. -/
theorem c8_lone_plus_index_out_of_range :
    parseAmountCents "+" = ParseOutcome.indexOutOfRange ∧
    parseAmountCents " + " = ParseOutcome.indexOutOfRange ∧
    parseAmountCents "-" = ParseOutcome.err "invalid amount integer" := by
  refine ⟨rfl, rfl, rfl⟩
end EntainHW
